import Mathlib

/-!
Blackjack against a remote deck service (`scripts/script.js`).

A shallow embedding of the game engine of `scripts/script.js`: the scoring
functions `cardValue` and `handScore`, the outcome rule `evaluate`, and the
operations `newGame`, `hit`, `stand` and `dealerTurn` over the four globals
`deckId`, `playerCards`, `dealerCards` and `gameActive`.

Modelling choices.

* A card's `value` is one of the thirteen strings the deck service serves
  (`"2"` .. `"10"`, `"JACK"`, `"QUEEN"`, `"KING"`, `"ACE"`); the type `Value`
  has one constructor for each, so every hand of the model is a hand of valid
  cards.
* Scores are natural numbers. The only subtraction of the source,
  `score -= 10`, runs under the guard `score > 21`.
* The deck service is a script of responses, consumed one per `apiFetch` call.
  An operation is run to its end against that script and yields a `Run`: the
  state it ends in, how it ended, the requests it issued, and the state at
  each `await` (the points at which another event handler could observe the
  globals).
* Of the page, the model keeps what the operations write as text: the status
  line, the result banner and the enabled state of the three buttons. The
  drawing of cards and score labels is left out.
-/

namespace Blackjack

/-! ## Cards -/

/-- The `value` field of a card, as served by the deck service. -/
inductive Value where
  | two | three | four | five | six | seven | eight | nine | ten
  | JACK | QUEEN | KING | ACE
  deriving DecidableEq, Repr

/-- The `suit` field of a card. -/
inductive Suit where
  | SPADES | HEARTS | DIAMONDS | CLUBS
  deriving DecidableEq, Repr

/-- A card of the deck service: the fields the script reads. -/
structure Card where
  value : Value
  suit : Suit
  deriving DecidableEq, Repr

/-- The number `parseInt(card.value)` yields on the numeric values. On the four
named values `parseInt` yields `NaN`; `cardValue` never asks for it there, and
the model writes `0`. -/
def parseInt : Value → Nat
  | .two => 2 | .three => 3 | .four => 4 | .five => 5 | .six => 6
  | .seven => 7 | .eight => 8 | .nine => 9 | .ten => 10
  | .JACK => 0 | .QUEEN => 0 | .KING => 0 | .ACE => 0

/-! ## Scoring -/

/-- `cardValue(card)`: 10 for a face card, 11 for an ace, the number otherwise. -/
def cardValue (card : Card) : Nat :=
  if card.value = Value.JACK ∨ card.value = Value.QUEEN ∨ card.value = Value.KING then 10
  else if card.value = Value.ACE then 11
  else parseInt card.value

/-- The body of the `for` loop of `handScore`, on the pair `(score, aces)`. -/
def scoreStep (acc : Nat × Nat) (card : Card) : Nat × Nat :=
  (acc.1 + cardValue card, if card.value = Value.ACE then acc.2 + 1 else acc.2)

/-- The loop `while (score > 21 && aces > 0) { score -= 10; aces--; }` of
`handScore`, returning the final `score`. -/
def aceLoop : Nat → Nat → Nat
  | score, 0 => score
  | score, aces + 1 => if score > 21 then aceLoop (score - 10) aces else score

/-- `handScore(cards)`. -/
def handScore (cards : List Card) : Nat :=
  let acc := cards.foldl scoreStep (0, 0)
  aceLoop acc.1 acc.2

/-! ## Reference notions for the scoring claims -/

/-- The number of aces in a hand. -/
def aceCount (cards : List Card) : Nat :=
  (cards.filter (fun c => c.value = Value.ACE)).length

/-- The value of a card when an ace counts 1. -/
def lowValue (card : Card) : Nat :=
  if card.value = Value.ACE then 1 else cardValue card

/-- The total of a hand with every ace valued 1. -/
def lowTotal (cards : List Card) : Nat :=
  (cards.map lowValue).sum

/-- Every total of a hand over the ways of valuing each ace as 1 or as 11,
one entry per way, the other cards at their base value. -/
def totals : List Card → List Nat
  | [] => [0]
  | c :: cs =>
    if c.value = Value.ACE then
      (totals cs).map (fun t => 1 + t) ++ (totals cs).map (fun t => 11 + t)
    else (totals cs).map (fun t => cardValue c + t)

/-! ## Game state and the deck service -/

/-- The globals of the script (`deckId`, `playerCards`, `dealerCards`,
`gameActive`) and the text the operations write to the page. -/
structure State where
  /-- The global `deckId`; `none` is `null`. -/
  deckId : Option String
  playerCards : List Card
  dealerCards : List Card
  gameActive : Bool
  /-- The text of `elStatus`. -/
  status : String
  /-- The field `elResult.className`. -/
  resultClass : String
  /-- The field `elResult.textContent`. -/
  resultText : String
  /-- The field `btnHit.disabled`. -/
  hitDisabled : Bool
  /-- The field `btnStand.disabled`. -/
  standDisabled : Bool
  /-- The field `btnNew.disabled`. -/
  newDisabled : Bool
  deriving DecidableEq, Repr

/-- The state when the script has loaded: `deckId = null`, empty hands,
`gameActive = false`, nothing written to the page. -/
def State.initial : State :=
  { deckId := none, playerCards := [], dealerCards := [], gameActive := false,
    status := "", resultClass := "", resultText := "",
    hitDisabled := false, standDisabled := false, newDisabled := false }

/-- A request to the deck service, one per `apiFetch` call of the script. -/
inductive Request where
  /-- A fetch of `API + '/new/shuffle/?deck_count=' + n`. -/
  | newShuffle (deck_count : Nat)
  /-- A fetch of `API + '/' + deckId + '/shuffle/'`. -/
  | shuffle (deckId : String)
  /-- A fetch of `API + '/' + deckId + '/draw/?count=' + n`. -/
  | draw (deckId : Option String) (count : Nat)
  deriving DecidableEq, Repr

/-- The JSON body of a successful answer: the fields the script reads. -/
structure Payload where
  deck_id : String
  cards : List Card
  deriving DecidableEq, Repr

/-- The outcome of one `apiFetch` call: it throws (the fetch rejects or
`r.ok` is false), or it returns the JSON body. -/
inductive Response where
  | fail
  | ok (body : Payload)
  deriving DecidableEq, Repr

/-- How the run of an operation ends. -/
inductive Completion where
  /-- The operation ran to its end; an error caught by its own `catch` counts. -/
  | returned
  /-- An `apiFetch` call threw and nothing caught it. -/
  | threw
  /-- The script of responses ran out: the operation is left waiting. -/
  | pending
  /-- A body held fewer cards than the script reads from it. The hands would
  then hold `undefined`, which the hand type cannot hold: the run is not
  followed further and `final` is the state just before the body is used. -/
  | shortDraw
  deriving DecidableEq, Repr

/-- The run of one operation against a script of responses. -/
structure Run where
  /-- The state in which the run ends. -/
  final : State
  completion : Completion
  /-- The requests issued, in order. -/
  requests : List Request
  /-- The state at each `await` of the run, in order. -/
  awaits : List State
  /-- The responses not consumed. -/
  rest : List Response
  deriving DecidableEq, Repr

/-- A run preceded by requests and awaits that happened before it. -/
def Run.after (reqs : List Request) (aws : List State) (r : Run) : Run :=
  { r with requests := reqs ++ r.requests, awaits := aws ++ r.awaits }

/-- The states another event handler can observe during and after a run: the
state at each `await`, then the state the run ends in. -/
def Run.observable (r : Run) : List State :=
  r.awaits ++ [r.final]

/-! ## Page helpers -/

/-- `setStatus(msg)`. -/
def setStatus (msg : String) (s : State) : State :=
  { s with status := msg }

/-- `setButtons(playing)`. -/
def setButtons (playing : Bool) (s : State) : State :=
  { s with hitDisabled := !playing, standDisabled := !playing, newDisabled := playing }

/-- `showResult(type, msg)`. -/
def showResult (type msg : String) (s : State) : State :=
  { s with resultClass := "show " ++ type, resultText := msg, status := "" }

/-! ## Operations -/

/-- The statement `playerCards.push(card)`. -/
def pushPlayer (c : Card) (s : State) : State :=
  { s with playerCards := s.playerCards ++ [c] }

/-- The statement `dealerCards.push(card)`. -/
def pushDealer (c : Card) (s : State) : State :=
  { s with dealerCards := s.dealerCards ++ [c] }

/-- `evaluate()`: compares the two scores and shows the result. -/
def evaluate (s : State) : State :=
  let p := handScore s.playerCards
  let d := handScore s.dealerCards
  let bj := p = 21 ∧ s.playerCards.length = 2
  if bj ∧ d ≠ 21 then showResult "win" "Blackjack, ganaste" s
  else if p > 21 then showResult "lose" "Te pasaste" s
  else if d > 21 then showResult "win" "El crupier se paso, ganaste" s
  else if p > d then showResult "win" "Ganaste" s
  else if d > p then showResult "lose" "Perdiste" s
  else showResult "tie" "Empate" s

/-- The loop of `dealerTurn` and what follows it: while the dealer scores
under 17, wait, draw one card and push it; then wait and call `evaluate`. -/
def dealerLoop (s : State) (rs : List Response) : Run :=
  if handScore s.dealerCards < 17 then
    match rs with
    | [] => ⟨s, .pending, [.draw s.deckId 1], [s, s], []⟩
    | .fail :: rest => ⟨s, .threw, [.draw s.deckId 1], [s, s], rest⟩
    | .ok draw :: rest =>
      match draw.cards with
      | [] => ⟨s, .shortDraw, [.draw s.deckId 1], [s, s], rest⟩
      | c :: _ =>
        (dealerLoop (pushDealer c s) rest).after [.draw s.deckId 1] [s, s]
  else ⟨evaluate s, .returned, [], [s], rs⟩

/-- The first statements of `dealerTurn`: `gameActive = false` and
`setButtons(false)`. -/
def dealerStart (s : State) : State :=
  setButtons false { s with gameActive := false }

/-- `dealerTurn()`. -/
def dealerTurn (s : State) (rs : List Response) : Run :=
  dealerLoop (dealerStart s) rs

/-- `stand()`. -/
def stand (s : State) (rs : List Response) : Run :=
  if !s.gameActive then ⟨s, .returned, [], [], rs⟩
  else
    dealerTurn
      (setStatus "Turno del crupier..." (setButtons false { s with gameActive := false })) rs

/-- `hit()`. -/
def hit (s : State) (rs : List Response) : Run :=
  if !s.gameActive then ⟨s, .returned, [], [], rs⟩
  else
    let s1 := setStatus "Pidiendo carta..." (setButtons false s)
    match rs with
    | [] => ⟨s1, .pending, [.draw s1.deckId 1], [s1], []⟩
    | .fail :: rest => ⟨s1, .threw, [.draw s1.deckId 1], [s1], rest⟩
    | .ok draw :: rest =>
      match draw.cards with
      | [] => ⟨s1, .shortDraw, [.draw s1.deckId 1], [s1], rest⟩
      | c :: _ =>
        let s2 := pushPlayer c s1
        let score := handScore s2.playerCards
        if score > 21 then
          ⟨showResult "lose" "Te pasaste" { s2 with gameActive := false }, .returned,
            [.draw s1.deckId 1], [s1], rest⟩
        else if score = 21 then (dealerTurn s2 rest).after [.draw s1.deckId 1] [s1]
        else
          ⟨setButtons true (setStatus "Pide otra carta o plantate" s2), .returned,
            [.draw s1.deckId 1], [s1], rest⟩

/-- The `catch` block of `newGame`. -/
def catchError (s : State) : State :=
  setStatus "Error de conexion. Intenta de nuevo." { s with deckId := none }

/-- A run inside the `try` block of `newGame`: an error thrown is caught. -/
def Run.caught (r : Run) : Run :=
  if r.completion = .threw then { r with final := catchError r.final, completion := .returned }
  else r

/-- The three assignments of `newGame` after the 4-card draw: the player gets
`draw.cards[0]` and `draw.cards[2]`, the dealer `draw.cards[1]` and
`draw.cards[3]`, and `gameActive` becomes true. -/
def dealHands (c0 c1 c2 c3 : Card) (s : State) : State :=
  { s with playerCards := [c0, c2], dealerCards := [c1, c3], gameActive := true }

/-- The part of `newGame` from the 4-card draw on, inside the `try` block. -/
def deal (s : State) (rs : List Response) : Run :=
  match rs with
  | [] => ⟨s, .pending, [.draw s.deckId 4], [s], []⟩
  | .fail :: rest => ⟨s, .threw, [.draw s.deckId 4], [s], rest⟩
  | .ok draw :: rest =>
    match draw.cards with
    | c0 :: c1 :: c2 :: c3 :: _ =>
      let s1 := dealHands c0 c1 c2 c3 s
      if handScore s1.playerCards = 21 then (dealerTurn s1 rest).after [.draw s.deckId 4] [s]
      else
        ⟨setButtons true (setStatus "Pide carta o plantate" s1), .returned,
          [.draw s.deckId 4], [s], rest⟩
    | _ => ⟨s, .shortDraw, [.draw s.deckId 4], [s], rest⟩

/-- The test `!deckId`: true of `null` and of the empty string. -/
def noDeck (deckId : Option String) : Bool :=
  match deckId with
  | none => true
  | some id => id = ""

/-- The `try` block of `newGame`: a fresh six-deck shoe when there is no deck
handle, a reshuffle of the deck otherwise; then the deal. -/
def tryNewGame (s : State) (rs : List Response) : Run :=
  if noDeck s.deckId then
    match rs with
    | [] => ⟨s, .pending, [.newShuffle 6], [s], []⟩
    | .fail :: rest => ⟨s, .threw, [.newShuffle 6], [s], rest⟩
    | .ok d :: rest => (deal { s with deckId := some d.deck_id } rest).after [.newShuffle 6] [s]
  else
    match rs with
    | [] => ⟨s, .pending, [.shuffle (s.deckId.getD "")], [s], []⟩
    | .fail :: rest => ⟨s, .threw, [.shuffle (s.deckId.getD "")], [s], rest⟩
    | .ok _ :: rest => (deal s rest).after [.shuffle (s.deckId.getD "")] [s]

/-- The statements of `newGame` before the `try` block: the result banner is
cleared, the status reads `'Repartiendo...'` and `setButtons(false)` runs. -/
def startDealing (s : State) : State :=
  setButtons false (setStatus "Repartiendo..." { s with resultClass := "", resultText := "" })

/-- `newGame()`. -/
def newGame (s : State) (rs : List Response) : Run :=
  (tryNewGame (startDealing s) rs).caught

/-! ## Reference notions for the outcome claims -/

/-- One rule of the outcome evaluator: a condition on the two hands and the
result it selects (its class and its message). -/
structure Rule where
  cond : Bool
  type : String
  msg : String
  deriving DecidableEq, Repr

/-- The ordered rule list of the outcome evaluator, on a player hand and a
dealer hand: blackjack, player bust, dealer bust, higher score, lower score,
and tie otherwise. -/
def outcomeRules (player dealer : List Card) : List Rule :=
  let p := handScore player
  let d := handScore dealer
  [ ⟨decide (player.length = 2 ∧ p = 21 ∧ d ≠ 21), "win", "Blackjack, ganaste"⟩,
    ⟨decide (p > 21), "lose", "Te pasaste"⟩,
    ⟨decide (d > 21), "win", "El crupier se paso, ganaste"⟩,
    ⟨decide (p > d), "win", "Ganaste"⟩,
    ⟨decide (d > p), "lose", "Perdiste"⟩,
    ⟨true, "tie", "Empate"⟩ ]

/-- The first rule of a list whose condition holds. -/
def firstMatching (rules : List Rule) : Option Rule :=
  rules.find? (fun r => r.cond)

/-- A card of the given value; the suit plays no part in the game. -/
def card (v : Value) : Card :=
  ⟨v, Suit.SPADES⟩

/-! ## Reference notions for the drawing claims -/

/-- The card a one-card draw reads from a response, `draw.cards[0]`: none
when the request fails or the body holds no card. -/
def served : Response → Option Card
  | .fail => none
  | .ok body => body.cards.head?

/-- A state in the player's turn, on the deck `"d"`, with the given hands. -/
def inPlay (player dealer : List Card) : State :=
  { State.initial with
    deckId := some "d", playerCards := player, dealerCards := dealer, gameActive := true }

/-- A state with the given hands in which no round is in play. -/
def idle (player dealer : List Card) : State :=
  { State.initial with deckId := some "d", playerCards := player, dealerCards := dealer }

/-- The state after the dealer has pushed the cards `cs`, in order. -/
def pushDealerAll (cs : List Card) (s : State) : State :=
  cs.foldl (fun s c => pushDealer c s) s

/-! ## Reference notions for the later scoring and outcome claims -/

/-- The base value of a card value: the face value for 2 to 10, 10 for JACK,
QUEEN and KING, 11 for ACE. -/
def baseValue : Value → Nat
  | .two => 2 | .three => 3 | .four => 4 | .five => 5 | .six => 6
  | .seven => 7 | .eight => 8 | .nine => 9 | .ten => 10
  | .JACK => 10 | .QUEEN => 10 | .KING => 10 | .ACE => 11

/-- The plain sum of the base values of a hand. -/
def baseSum (cards : List Card) : Nat :=
  (cards.map (fun c => baseValue c.value)).sum

/-- The rule list of `evaluate` with its first rule (blackjack) removed:
player bust, dealer bust, higher score, lower score, tie. -/
def evaluateNoBlackjack (s : State) : State :=
  let p := handScore s.playerCards
  let d := handScore s.dealerCards
  if p > 21 then showResult "lose" "Te pasaste" s
  else if d > 21 then showResult "win" "El crupier se paso, ganaste" s
  else if p > d then showResult "win" "Ganaste" s
  else if d > p then showResult "lose" "Perdiste" s
  else showResult "tie" "Empate" s

/-- Every response of the script is a successful draw serving a card. -/
def allServe (rs : List Response) : Bool :=
  rs.all (fun r => (served r).isSome)

/-- The run has ended: the operation returned or threw. -/
def Run.ended (r : Run) : Prop :=
  r.completion = .returned ∨ r.completion = .threw

/-- The states reached from the state after loading by a sequence of ended
runs of `newGame`, `hit` and `stand`, each against any script of responses. -/
inductive Reachable : State → Prop where
  | initial : Reachable State.initial
  | newGame (s : State) (rs : List Response) :
      Reachable s → (newGame s rs).ended → Reachable (newGame s rs).final
  | hit (s : State) (rs : List Response) :
      Reachable s → (hit s rs).ended → Reachable (hit s rs).final
  | stand (s : State) (rs : List Response) :
      Reachable s → (stand s rs).ended → Reachable (stand s rs).final

/-- The invariant of the states in which the player may act: when `gameActive`
is true the player hand scores under 21 and holds at least 2 cards, and the
dealer hand holds exactly 2 cards. -/
def TurnInvariant (s : State) : Prop :=
  s.gameActive = true →
    handScore s.playerCards < 21 ∧ 2 ≤ s.playerCards.length ∧ s.dealerCards.length = 2

/-! ## Scoring: auxiliary facts -/

theorem foldl_scoreStep (cards : List Card) (a b : Nat) :
    cards.foldl scoreStep (a, b) = (a + (cards.map cardValue).sum, b + aceCount cards) := by
  induction cards generalizing a b with
  | nil => simp [aceCount]
  | cons c cs ih =>
    simp only [List.foldl_cons, scoreStep, ih, List.map_cons, List.sum_cons, aceCount,
      List.filter_cons]
    by_cases h : c.value = Value.ACE <;> simp [h] <;> omega

theorem cardValue_eq_lowValue (c : Card) :
    cardValue c = lowValue c + (if c.value = Value.ACE then 10 else 0) := by
  by_cases h : c.value = Value.ACE <;> simp [lowValue, cardValue, h]

theorem sum_cardValue (cards : List Card) :
    (cards.map cardValue).sum = lowTotal cards + 10 * aceCount cards := by
  induction cards with
  | nil => simp [lowTotal, aceCount]
  | cons c cs ih =>
    simp only [List.map_cons, List.sum_cons, ih, lowTotal, aceCount, List.filter_cons,
      cardValue_eq_lowValue c]
    by_cases h : c.value = Value.ACE <;> simp [h] <;> omega

theorem handScore_eq (cards : List Card) :
    handScore cards = aceLoop (lowTotal cards + 10 * aceCount cards) (aceCount cards) := by
  unfold handScore
  rw [foldl_scoreStep]
  simp [sum_cardValue]

theorem aceLoop_spec (low : Nat) (a : Nat) :
    ∃ j, j ≤ a ∧ aceLoop (low + 10 * a) a = low + 10 * j ∧ (j = 0 ∨ low + 10 * j ≤ 21) ∧
      ∀ i, i ≤ a → low + 10 * i ≤ 21 → i ≤ j := by
  induction a with
  | zero => exact ⟨0, le_refl _, by simp [aceLoop], Or.inl rfl, fun i hi _ => hi⟩
  | succ a ih =>
    by_cases h : low + 10 * (a + 1) > 21
    · obtain ⟨j, hj, hv, hle, hmax⟩ := ih
      refine ⟨j, by omega, ?_, hle, ?_⟩
      · have : low + 10 * (a + 1) - 10 = low + 10 * a := by omega
        simp [aceLoop, h, this, hv]
      · intro i hi h21
        have : i ≤ a := by omega
        exact hmax i this h21
    · refine ⟨a + 1, le_refl _, ?_, Or.inr (by omega), fun i hi _ => hi⟩
      simp [aceLoop, h]

theorem mem_totals (cards : List Card) (t : Nat) :
    t ∈ totals cards ↔ ∃ j, j ≤ aceCount cards ∧ t = lowTotal cards + 10 * j := by
  induction cards generalizing t with
  | nil => simp [totals, aceCount, lowTotal]
  | cons c cs ih =>
    by_cases h : c.value = Value.ACE
    · simp only [totals, h, if_true, List.mem_append, List.mem_map, ih, aceCount,
        List.filter_cons, lowTotal, List.map_cons, List.sum_cons, lowValue]
      simp only [decide_True, if_true, List.length_cons]
      constructor
      · rintro (⟨u, ⟨j, hj, rfl⟩, rfl⟩ | ⟨u, ⟨j, hj, rfl⟩, rfl⟩)
        · exact ⟨j, by omega, by omega⟩
        · exact ⟨j + 1, by omega, by omega⟩
      · rintro ⟨j, hj, rfl⟩
        by_cases hj' : j ≤ (List.filter (fun c => decide (c.value = Value.ACE)) cs).length
        · exact Or.inl ⟨_, ⟨j, hj', rfl⟩, by omega⟩
        · exact Or.inr ⟨_, ⟨j - 1, by omega, rfl⟩, by omega⟩
    · simp only [totals, h, if_false, List.mem_map, ih, aceCount,
        List.filter_cons, lowTotal, List.map_cons, List.sum_cons, lowValue]
      simp only [h, decide_False, if_false]
      constructor
      · rintro ⟨u, ⟨j, hj, rfl⟩, rfl⟩
        exact ⟨j, hj, by omega⟩
      · rintro ⟨j, hj, rfl⟩
        exact ⟨_, ⟨j, hj, rfl⟩, by omega⟩

/-! ## Scoring: the claims -/

/-- C1. The score of a hand is the greatest total not above 21 among the ways
of valuing each ace as 11 or as 1; when even the total with every ace valued 1
is above 21, the score is that total. -/
theorem handScore_best_total (hand : List Card) :
    (lowTotal hand ≤ 21 →
      handScore hand ∈ totals hand ∧ handScore hand ≤ 21 ∧
        ∀ t ∈ totals hand, t ≤ 21 → t ≤ handScore hand) ∧
    (21 < lowTotal hand → handScore hand = lowTotal hand) := by
  obtain ⟨j, hj, hv, hle, hmax⟩ := aceLoop_spec (lowTotal hand) (aceCount hand)
  rw [handScore_eq, hv]
  refine ⟨fun hlow => ⟨(mem_totals hand _).2 ⟨j, hj, rfl⟩, ?_, ?_⟩, fun hbust => ?_⟩
  · rcases hle with rfl | h
    · simpa using hlow
    · exact h
  · intro t ht h21
    obtain ⟨i, hi, rfl⟩ := (mem_totals hand t).1 ht
    have := hmax i hi h21
    omega
  · rcases hle with rfl | h
    · simp
    · omega

/-- Witness of C1 on the hands {ACE, ACE, 9} (21) and {KING, QUEEN, 5, ACE} (26). -/
theorem handScore_best_total_witness :
    (lowTotal [card .ACE, card .ACE, card .nine] ≤ 21 ∧
      handScore [card .ACE, card .ACE, card .nine] ∈ totals [card .ACE, card .ACE, card .nine] ∧
      handScore [card .ACE, card .ACE, card .nine] ≤ 21 ∧
      ∀ t ∈ totals [card .ACE, card .ACE, card .nine], t ≤ 21 →
        t ≤ handScore [card .ACE, card .ACE, card .nine]) ∧
    (21 < lowTotal [card .KING, card .QUEEN, card .five, card .ACE] ∧
      handScore [card .KING, card .QUEEN, card .five, card .ACE] =
        lowTotal [card .KING, card .QUEEN, card .five, card .ACE]) :=
  ⟨⟨by decide, (handScore_best_total [card .ACE, card .ACE, card .nine]).1 (by decide)⟩,
   ⟨by decide, (handScore_best_total [card .KING, card .QUEEN, card .five, card .ACE]).2
      (by decide)⟩⟩

/-- C10. The score of a hand does not depend on the order of its cards: two
hands that are permutations of each other have the same score. -/
theorem handScore_perm (hand₁ hand₂ : List Card) (hp : hand₁.Perm hand₂) :
    handScore hand₁ = handScore hand₂ := by
  have hlow : lowTotal hand₁ = lowTotal hand₂ := (hp.map lowValue).sum_eq
  have hace : aceCount hand₁ = aceCount hand₂ := (hp.filter _).length_eq
  rw [handScore_eq, handScore_eq, hlow, hace]

/-- Witness of C10 on {ACE, 5, 6} and its reordering {6, ACE, 5}. -/
theorem handScore_perm_witness :
    [card .ACE, card .five, card .six].Perm [card .six, card .ACE, card .five] ∧
      handScore [card .ACE, card .five, card .six] =
        handScore [card .six, card .ACE, card .five] :=
  ⟨by decide, handScore_perm _ _ (by decide)⟩

/-! ## The outcome rule -/

/-- C2. The result `evaluate` shows is the one selected by the first matching
rule of the ordered list: blackjack, player bust, dealer bust, higher score,
lower score, tie. Player {ACE, KING} against dealer {10, 8} wins by blackjack;
player {10, 9} against dealer {10, 9} ties. -/
theorem evaluate_first_matching :
    (∀ s : State, ∃ r, firstMatching (outcomeRules s.playerCards s.dealerCards) = some r ∧
      evaluate s = showResult r.type r.msg s) ∧
    (∀ s : State, s.playerCards = [card .ACE, card .KING] →
      s.dealerCards = [card .ten, card .eight] →
      evaluate s = showResult "win" "Blackjack, ganaste" s) ∧
    (∀ s : State, s.playerCards = [card .ten, card .nine] →
      s.dealerCards = [card .ten, card .nine] →
      evaluate s = showResult "tie" "Empate" s) := by
  refine ⟨fun s => ?_, fun s hp hd => ?_, fun s hp hd => ?_⟩
  · simp only [firstMatching, outcomeRules, evaluate, List.find?_cons]
    by_cases h1 : (handScore s.playerCards = 21 ∧ s.playerCards.length = 2) ∧
        handScore s.dealerCards ≠ 21
    · refine ⟨⟨true, "win", "Blackjack, ganaste"⟩, ?_, ?_⟩
      · simp [h1.1.1, h1.1.2, h1.2]
      · rw [if_pos h1]
    · have h1' : ¬ (s.playerCards.length = 2 ∧ handScore s.playerCards = 21 ∧
          handScore s.dealerCards ≠ 21) := fun h => h1 ⟨⟨h.2.1, h.1⟩, h.2.2⟩
      rw [if_neg h1, decide_eq_false h1']
      by_cases h2 : handScore s.playerCards > 21
      · refine ⟨⟨true, "lose", "Te pasaste"⟩, ?_, ?_⟩
        · simp [h2]
        · rw [if_pos h2]
      · rw [if_neg h2, decide_eq_false h2]
        by_cases h3 : handScore s.dealerCards > 21
        · refine ⟨⟨true, "win", "El crupier se paso, ganaste"⟩, ?_, ?_⟩
          · simp [h3]
          · rw [if_pos h3]
        · rw [if_neg h3, decide_eq_false h3]
          by_cases h4 : handScore s.playerCards > handScore s.dealerCards
          · refine ⟨⟨true, "win", "Ganaste"⟩, ?_, ?_⟩
            · simp [h4]
            · rw [if_pos h4]
          · rw [if_neg h4, decide_eq_false h4]
            by_cases h5 : handScore s.dealerCards > handScore s.playerCards
            · refine ⟨⟨true, "lose", "Perdiste"⟩, ?_, ?_⟩
              · simp [h5]
              · rw [if_pos h5]
            · rw [if_neg h5, decide_eq_false h5]
              exact ⟨_, rfl, rfl⟩
  · have hps : handScore s.playerCards = 21 := by rw [hp]; decide
    have hds : handScore s.dealerCards = 18 := by rw [hd]; decide
    have hlen : s.playerCards.length = 2 := by rw [hp]; rfl
    simp [evaluate, hps, hds, hlen]
  · have hps : handScore s.playerCards = 19 := by rw [hp]; decide
    have hds : handScore s.dealerCards = 19 := by rw [hd]; decide
    simp [evaluate, hps, hds]

/-- Witness of C2: from the state after loading with player {ACE, KING} and
dealer {10, 8}, `evaluate` shows the blackjack win. -/
theorem evaluate_first_matching_witness :
    evaluate { State.initial with
        playerCards := [card .ACE, card .KING], dealerCards := [card .ten, card .eight] } =
      showResult "win" "Blackjack, ganaste" { State.initial with
        playerCards := [card .ACE, card .KING], dealerCards := [card .ten, card .eight] } :=
  evaluate_first_matching.2.1 _ rfl rfl

/-! ## Frame facts of the helpers -/

@[simp] theorem setStatus_fields (msg : String) (s : State) :
    (setStatus msg s).deckId = s.deckId ∧ (setStatus msg s).playerCards = s.playerCards ∧
      (setStatus msg s).dealerCards = s.dealerCards ∧
      (setStatus msg s).gameActive = s.gameActive :=
  ⟨rfl, rfl, rfl, rfl⟩

@[simp] theorem setButtons_fields (b : Bool) (s : State) :
    (setButtons b s).deckId = s.deckId ∧ (setButtons b s).playerCards = s.playerCards ∧
      (setButtons b s).dealerCards = s.dealerCards ∧
      (setButtons b s).gameActive = s.gameActive :=
  ⟨rfl, rfl, rfl, rfl⟩

@[simp] theorem showResult_fields (type msg : String) (s : State) :
    (showResult type msg s).deckId = s.deckId ∧
      (showResult type msg s).playerCards = s.playerCards ∧
      (showResult type msg s).dealerCards = s.dealerCards ∧
      (showResult type msg s).gameActive = s.gameActive :=
  ⟨rfl, rfl, rfl, rfl⟩

@[simp] theorem dealerStart_fields (s : State) :
    (dealerStart s).deckId = s.deckId ∧ (dealerStart s).playerCards = s.playerCards ∧
      (dealerStart s).dealerCards = s.dealerCards ∧ (dealerStart s).gameActive = false :=
  ⟨rfl, rfl, rfl, rfl⟩

@[simp] theorem pushDealer_fields (c : Card) (s : State) :
    (pushDealer c s).deckId = s.deckId ∧ (pushDealer c s).playerCards = s.playerCards ∧
      (pushDealer c s).dealerCards = s.dealerCards ++ [c] ∧
      (pushDealer c s).gameActive = s.gameActive :=
  ⟨rfl, rfl, rfl, rfl⟩

@[simp] theorem pushPlayer_fields (c : Card) (s : State) :
    (pushPlayer c s).deckId = s.deckId ∧ (pushPlayer c s).playerCards = s.playerCards ++ [c] ∧
      (pushPlayer c s).dealerCards = s.dealerCards ∧
      (pushPlayer c s).gameActive = s.gameActive :=
  ⟨rfl, rfl, rfl, rfl⟩

@[simp] theorem pushDealerAll_fields (cs : List Card) (s : State) :
    (pushDealerAll cs s).deckId = s.deckId ∧
      (pushDealerAll cs s).playerCards = s.playerCards ∧
      (pushDealerAll cs s).dealerCards = s.dealerCards ++ cs ∧
      (pushDealerAll cs s).gameActive = s.gameActive := by
  induction cs generalizing s with
  | nil => simp [pushDealerAll]
  | cons c cs ih =>
    have h := ih (pushDealer c s)
    simp only [pushDealerAll, List.foldl_cons] at h ⊢
    simpa using h

@[simp] theorem evaluate_fields (s : State) :
    (evaluate s).deckId = s.deckId ∧ (evaluate s).playerCards = s.playerCards ∧
      (evaluate s).dealerCards = s.dealerCards ∧ (evaluate s).gameActive = s.gameActive := by
  unfold evaluate
  simp only []
  split_ifs <;> simp

/-! ## The dealer turn -/

theorem served_eq_some {r : Response} {c : Card} (h : served r = some c) :
    ∃ body more, r = .ok body ∧ body.cards = c :: more := by
  cases r with
  | fail => simp [served] at h
  | ok body =>
    cases hb : body.cards with
    | nil => simp [served, hb] at h
    | cons c' more =>
      simp [served, hb] at h
      subst h
      exact ⟨body, more, rfl, hb⟩

theorem dealerLoop_stop (s : State) (rs : List Response) (h : 17 ≤ handScore s.dealerCards) :
    dealerLoop s rs = ⟨evaluate s, .returned, [], [s], rs⟩ := by
  unfold dealerLoop
  rw [if_neg (by omega)]

theorem dealerLoop_draw (s : State) (body : Payload) (c : Card) (more : List Card)
    (rest : List Response) (h : handScore s.dealerCards < 17) (hb : body.cards = c :: more) :
    dealerLoop s (.ok body :: rest) =
      (dealerLoop (pushDealer c s) rest).after [.draw s.deckId 1] [s, s] := by
  rw [dealerLoop, if_pos h]
  simp only [hb]

/-- The dealer loop on a script whose first responses serve the cards `cs`,
where `cs` is the shortest run of cards taking the dealer to 17 or more. -/
theorem dealerLoop_run (cs : List Card) :
    ∀ (s : State) (pre rest : List Response), pre.map served = cs.map some →
      (∀ j, j < cs.length → handScore (s.dealerCards ++ cs.take j) < 17) →
      17 ≤ handScore (s.dealerCards ++ cs) →
      (dealerLoop s (pre ++ rest)).final = evaluate (pushDealerAll cs s) ∧
        (dealerLoop s (pre ++ rest)).completion = .returned ∧
        (dealerLoop s (pre ++ rest)).requests = List.replicate cs.length (.draw s.deckId 1) ∧
        (dealerLoop s (pre ++ rest)).rest = rest := by
  induction cs with
  | nil =>
    intro s pre rest hpre _ hstop
    have hnil : pre = [] := by simpa using hpre
    subst hnil
    rw [List.append_nil] at hstop
    rw [List.nil_append, dealerLoop_stop s rest hstop]
    simp [pushDealerAll]
  | cons c cs ih =>
    intro s pre rest hpre hbefore hstop
    cases pre with
    | nil => simp at hpre
    | cons r pre =>
      simp only [List.map_cons, List.cons.injEq] at hpre
      obtain ⟨body, more, rfl, hb⟩ := served_eq_some hpre.1
      have h0 : handScore s.dealerCards < 17 := by
        simpa using hbefore 0 (by simp)
      rw [List.cons_append, dealerLoop_draw s body c more _ h0 hb]
      have ih' := ih (pushDealer c s) pre rest hpre.2
        (fun j hj => by
          have := hbefore (j + 1) (by simpa using hj)
          simpa using this)
        (by simpa using hstop)
      obtain ⟨hf, hc, hr, hrest⟩ := ih'
      refine ⟨?_, ?_, ?_, ?_⟩
      · simpa [Run.after, pushDealerAll] using hf
      · simpa [Run.after] using hc
      · simp [Run.after, hr, List.replicate_succ]
      · simpa [Run.after] using hrest

/-- C3. On a script whose first responses serve the cards `cs`, where every
dealer hand before the last of these draws scores under 17 and the hand with
all of `cs` scores 17 or more, `dealerTurn` returns having drawn exactly `cs`,
one request per card: it draws nothing when the dealer already scores 17 or
more (`cs` is then empty), and the final dealer hand scores 17 or more. -/
theorem dealerTurn_draws_to_17 (s : State) (cs : List Card) (pre rest : List Response)
    (hpre : pre.map served = cs.map some)
    (hbefore : ∀ j, j < cs.length → handScore (s.dealerCards ++ cs.take j) < 17)
    (hstop : 17 ≤ handScore (s.dealerCards ++ cs)) :
    (dealerTurn s (pre ++ rest)).completion = .returned ∧
      (dealerTurn s (pre ++ rest)).final.dealerCards = s.dealerCards ++ cs ∧
      (dealerTurn s (pre ++ rest)).requests = List.replicate cs.length (.draw s.deckId 1) ∧
      (dealerTurn s (pre ++ rest)).rest = rest ∧
      17 ≤ handScore (dealerTurn s (pre ++ rest)).final.dealerCards ∧
      (dealerTurn s (pre ++ rest)).final.playerCards = s.playerCards ∧
      (dealerTurn s (pre ++ rest)).final.gameActive = false ∧
      (17 ≤ handScore s.dealerCards → cs = []) := by
  obtain ⟨hf, hc, hr, hrest⟩ :=
    dealerLoop_run cs (dealerStart s) pre rest hpre hbefore hstop
  unfold dealerTurn
  rw [hf]
  refine ⟨hc, by simp, hr, hrest, by simpa using hstop, by simp, by simp, ?_⟩
  intro h17
  cases cs with
  | nil => rfl
  | cons c cs =>
    have := hbefore 0 (by simp)
    simp at this
    omega

/-- Witness of C3: dealer {6, 6} drawing a 10 ends at {6, 6, 10} = 22 after
exactly one draw; dealer {ACE, 6}, a soft 17, draws nothing although a card
is ready. -/
theorem dealerTurn_draws_to_17_witness :
    handScore ([card .six, card .six] ++ [card .ten]) = 22 ∧
    (dealerTurn (inPlay [card .ten, card .seven] [card .six, card .six])
      ([.ok ⟨"d", [card .ten]⟩] ++ [])).final.dealerCards =
        [card .six, card .six] ++ [card .ten] ∧
    (dealerTurn (inPlay [card .ten, card .seven] [card .six, card .six])
      ([.ok ⟨"d", [card .ten]⟩] ++ [])).requests = List.replicate 1 (.draw (some "d") 1) ∧
    (dealerTurn (inPlay [card .ten, card .seven] [card .ACE, card .six])
      ([] ++ [.ok ⟨"d", [card .ten]⟩])).requests = [] ∧
    (dealerTurn (inPlay [card .ten, card .seven] [card .ACE, card .six])
      ([] ++ [.ok ⟨"d", [card .ten]⟩])).final.dealerCards = [card .ACE, card .six] ++ [] :=
  have h := dealerTurn_draws_to_17 (inPlay [card .ten, card .seven] [card .six, card .six])
    [card .ten] [.ok ⟨"d", [card .ten]⟩] [] rfl
    (by intro j hj
        have hj0 : j = 0 := by simpa using hj
        subst hj0
        decide)
    (by decide)
  have h17 := dealerTurn_draws_to_17 (inPlay [card .ten, card .seven] [card .ACE, card .six])
    [] [] [.ok ⟨"d", [card .ten]⟩] rfl (fun j hj => absurd hj (by simp)) (by decide)
  ⟨by decide, h.2.1, h.2.2.1, h17.2.2.1, h17.2.1⟩

/-! ## Observable states of a run -/

@[simp] theorem dealHands_fields (c0 c1 c2 c3 : Card) (s : State) :
    (dealHands c0 c1 c2 c3 s).deckId = s.deckId ∧
      (dealHands c0 c1 c2 c3 s).playerCards = [c0, c2] ∧
      (dealHands c0 c1 c2 c3 s).dealerCards = [c1, c3] ∧
      (dealHands c0 c1 c2 c3 s).gameActive = true :=
  ⟨rfl, rfl, rfl, rfl⟩

@[simp] theorem catchError_fields (s : State) :
    (catchError s).deckId = none ∧ (catchError s).playerCards = s.playerCards ∧
      (catchError s).dealerCards = s.dealerCards ∧
      (catchError s).gameActive = s.gameActive :=
  ⟨rfl, rfl, rfl, rfl⟩

@[simp] theorem after_fields (reqs : List Request) (aws : List State) (r : Run) :
    (r.after reqs aws).final = r.final ∧ (r.after reqs aws).completion = r.completion ∧
      (r.after reqs aws).requests = reqs ++ r.requests ∧
      (r.after reqs aws).awaits = aws ++ r.awaits ∧ (r.after reqs aws).rest = r.rest :=
  ⟨rfl, rfl, rfl, rfl, rfl⟩

theorem after_observable (reqs : List Request) (aws : List State) (r : Run) :
    (r.after reqs aws).observable = aws ++ r.observable := by
  simp [Run.observable]

theorem caught_fields (r : Run) :
    r.caught.final.playerCards = r.final.playerCards ∧
      r.caught.final.dealerCards = r.final.dealerCards ∧
      r.caught.final.gameActive = r.final.gameActive ∧
      r.caught.requests = r.requests ∧ r.caught.awaits = r.awaits ∧ r.caught.rest = r.rest := by
  unfold Run.caught
  split_ifs <;> simp

theorem caught_of_returned (r : Run) (h : r.completion = .returned) : r.caught = r := by
  unfold Run.caught
  rw [if_neg (by rw [h]; decide)]

/-- Every state observable in a run of the dealer loop keeps the player hand,
`gameActive` and the deck handle, and its dealer hand extends the one the
loop started from. -/
theorem dealerLoop_observable (rs : List Response) :
    ∀ (s st : State), st ∈ (dealerLoop s rs).observable →
      st.playerCards = s.playerCards ∧ st.gameActive = s.gameActive ∧
        st.deckId = s.deckId ∧ ∃ t, st.dealerCards = s.dealerCards ++ t := by
  induction rs with
  | nil =>
    intro s st hst
    unfold dealerLoop at hst
    split_ifs at hst
    · simp [Run.observable] at hst
      subst hst
      exact ⟨rfl, rfl, rfl, [], by simp⟩
    · simp [Run.observable] at hst
      rcases hst with rfl | rfl
      · exact ⟨rfl, rfl, rfl, [], by simp⟩
      · simp
  | cons r rest ih =>
    intro s st hst
    by_cases h : handScore s.dealerCards < 17
    · cases r with
      | fail =>
        rw [dealerLoop, if_pos h] at hst
        simp [Run.observable] at hst
        subst hst
        exact ⟨rfl, rfl, rfl, [], by simp⟩
      | ok body =>
        cases hb : body.cards with
        | nil =>
          rw [dealerLoop, if_pos h] at hst
          simp only [hb] at hst
          simp [Run.observable] at hst
          subst hst
          exact ⟨rfl, rfl, rfl, [], by simp⟩
        | cons c more =>
          rw [dealerLoop_draw s body c more rest h hb, after_observable] at hst
          simp only [List.mem_append, List.mem_cons, List.mem_singleton, List.not_mem_nil,
            or_false, or_self] at hst
          rcases hst with rfl | hst
          · exact ⟨rfl, rfl, rfl, [], by simp⟩
          · obtain ⟨h1, h2, h3, t, h4⟩ := ih (pushDealer c s) st hst
            refine ⟨by simpa using h1, by simpa using h2, by simpa using h3, c :: t, ?_⟩
            simpa using h4
    · rw [dealerLoop_stop s _ (by omega)] at hst
      simp [Run.observable] at hst
      rcases hst with rfl | rfl
      · exact ⟨rfl, rfl, rfl, [], by simp⟩
      · simp

/-- The first state observable in a run of the dealer loop is the state the
loop started from. -/
theorem dealerLoop_awaits_head (s : State) (rs : List Response) :
    ∃ tl, (dealerLoop s rs).awaits = s :: tl := by
  unfold dealerLoop
  split_ifs
  · split
    · exact ⟨_, rfl⟩
    · exact ⟨_, rfl⟩
    · split
      · exact ⟨_, rfl⟩
      · exact ⟨_, rfl⟩
  · exact ⟨_, rfl⟩


/-! ## Starting a round -/

@[simp] theorem startDealing_fields (s : State) :
    (startDealing s).deckId = s.deckId ∧ (startDealing s).playerCards = s.playerCards ∧
      (startDealing s).dealerCards = s.dealerCards ∧
      (startDealing s).gameActive = s.gameActive :=
  ⟨rfl, rfl, rfl, rfl⟩

theorem deal_cards (s : State) (draw : Payload) (c0 c1 c2 c3 : Card) (more : List Card)
    (rest : List Response) (h : draw.cards = c0 :: c1 :: c2 :: c3 :: more) :
    deal s (.ok draw :: rest) =
      if handScore [c0, c2] = 21 then
        (dealerTurn (dealHands c0 c1 c2 c3 s) rest).after [.draw s.deckId 4] [s]
      else
        ⟨setButtons true (setStatus "Pide carta o plantate" (dealHands c0 c1 c2 c3 s)),
          .returned, [.draw s.deckId 4], [s], rest⟩ := by
  unfold deal
  simp only [h]
  rfl

/-- With two successful responses, `newGame` is the deal from a state that
still holds the old hands and the old `gameActive`, after one request. -/
theorem newGame_ok (s : State) (d : Payload) (rs : List Response) :
    ∃ s1 req, newGame s (.ok d :: rs) = ((deal s1 rs).after [req] [startDealing s]).caught ∧
      s1.playerCards = s.playerCards ∧ s1.dealerCards = s.dealerCards ∧
      s1.gameActive = s.gameActive := by
  unfold newGame tryNewGame
  split_ifs
  · exact ⟨_, _, rfl, rfl, rfl, rfl⟩
  · exact ⟨_, _, rfl, rfl, rfl, rfl⟩

theorem mem_observable_caught (r : Run) (st : State) (h : st ∈ r.caught.observable) :
    ∃ st', st' ∈ r.observable ∧ st.playerCards = st'.playerCards ∧
      st.dealerCards = st'.dealerCards ∧ st.gameActive = st'.gameActive := by
  obtain ⟨h1, h2, h3, -, h5, -⟩ := caught_fields r
  simp only [Run.observable, List.mem_append, List.mem_singleton] at h ⊢
  rcases h with h | rfl
  · exact ⟨st, Or.inl (by rwa [h5] at h), rfl, rfl, rfl⟩
  · exact ⟨r.final, Or.inr rfl, h1, h2, h3⟩

/-- The observable states of a successful deal, from the deal on: those of the
dealer turn when the player holds 21, the returned state otherwise. -/
theorem newGame_observable (s : State) (d draw : Payload) (c0 c1 c2 c3 : Card)
    (more : List Card) (rest : List Response) (h : draw.cards = c0 :: c1 :: c2 :: c3 :: more) :
    ∃ s1, s1.gameActive = s.gameActive ∧
      (handScore [c0, c2] = 21 →
        (newGame s (.ok d :: .ok draw :: rest)).observable.drop 2 =
          ((dealerTurn (dealHands c0 c1 c2 c3 s1) rest).after [] []).caught.observable) ∧
      (handScore [c0, c2] ≠ 21 →
        newGame s (.ok d :: .ok draw :: rest) =
          ⟨setButtons true (setStatus "Pide carta o plantate" (dealHands c0 c1 c2 c3 s1)),
            .returned, (newGame s (.ok d :: .ok draw :: rest)).requests,
            [startDealing s, s1], rest⟩) := by
  obtain ⟨s1, req, hrun, -, -, hg⟩ := newGame_ok s d (.ok draw :: rest)
  refine ⟨s1, hg, fun h21 => ?_, fun h21 => ?_⟩
  · rw [hrun, deal_cards s1 draw c0 c1 c2 c3 more rest h, if_pos h21]
    unfold Run.caught Run.observable
    split_ifs <;> simp_all
  · rw [hrun, deal_cards s1 draw c0 c1 c2 c3 more rest h, if_neg h21]
    rfl

/-- Every state observable from a successful deal on holds the player hand
`[c0, c2]` and a dealer hand that starts with `[c1, c3]`; when the player
holds 21 it also has `gameActive = false`. The first of these states holds the
dealer hand `[c1, c3]` exactly. -/
theorem newGame_after_deal (s : State) (d draw : Payload) (c0 c1 c2 c3 : Card)
    (more : List Card) (rest : List Response) (h : draw.cards = c0 :: c1 :: c2 :: c3 :: more) :
    (∃ st tl, (newGame s (.ok d :: .ok draw :: rest)).observable.drop 2 = st :: tl ∧
      st.playerCards = [c0, c2] ∧ st.dealerCards = [c1, c3]) ∧
    (∀ st, st ∈ (newGame s (.ok d :: .ok draw :: rest)).observable.drop 2 →
      st.playerCards = [c0, c2] ∧ (∃ t, st.dealerCards = [c1, c3] ++ t) ∧
      (handScore [c0, c2] = 21 → st.gameActive = false)) := by
  obtain ⟨s1, -, hnat, hnot⟩ := newGame_observable s d draw c0 c1 c2 c3 more rest h
  by_cases h21 : handScore [c0, c2] = 21
  · rw [hnat h21]
    constructor
    · obtain ⟨tl, htl⟩ := dealerLoop_awaits_head (dealerStart (dealHands c0 c1 c2 c3 s1)) rest
      obtain ⟨-, -, -, -, h5, -⟩ :=
        caught_fields ((dealerTurn (dealHands c0 c1 c2 c3 s1) rest).after [] [])
      refine ⟨dealerStart (dealHands c0 c1 c2 c3 s1),
        tl ++ [((dealerTurn (dealHands c0 c1 c2 c3 s1) rest).after [] []).caught.final],
        ?_, ?_, ?_⟩
      · unfold Run.observable
        rw [h5]
        simp only [after_fields, List.nil_append]
        unfold dealerTurn
        rw [htl]
        rfl
      · rfl
      · rfl
    · intro st hst
      obtain ⟨st', hst', hp, hd, hg⟩ := mem_observable_caught _ st hst
      rw [after_observable, List.nil_append] at hst'
      obtain ⟨h1, h2, -, t, h4⟩ := dealerLoop_observable rest _ st' hst'
      refine ⟨by rw [hp, h1]; rfl, ⟨t, by rw [hd, h4]; rfl⟩, fun _ => by rw [hg, h2]; rfl⟩
  · rw [hnot h21]
    refine ⟨⟨_, [], rfl, rfl, rfl⟩, ?_⟩
    intro st hst
    simp only [Run.observable, List.cons_append, List.nil_append, List.drop_succ_cons,
      List.drop_zero, List.mem_singleton] at hst
    subst hst
    exact ⟨rfl, ⟨[], rfl⟩, fun h' => absurd h' h21⟩

/-- C4. After a successful deal (the first request succeeds and the draw
returns the four cards `c0, c1, c2, c3`), the first state observable after the
deal holds the player hand `[c0, c2]` and the dealer hand `[c1, c3]`, both of
size 2, whatever the hands held before. The two observable states dropped are
those at the `await` of the two dealing requests, before the deal. -/
theorem newGame_deals_alternately (s : State) (d draw : Payload) (c0 c1 c2 c3 : Card)
    (more : List Card) (rest : List Response) (h : draw.cards = c0 :: c1 :: c2 :: c3 :: more) :
    ∃ st tl, (newGame s (.ok d :: .ok draw :: rest)).observable.drop 2 = st :: tl ∧
      st.playerCards = [c0, c2] ∧ st.dealerCards = [c1, c3] ∧
      st.playerCards.length = 2 ∧ st.dealerCards.length = 2 := by
  obtain ⟨st, tl, h1, h2, h3⟩ := (newGame_after_deal s d draw c0 c1 c2 c3 more rest h).1
  exact ⟨st, tl, h1, h2, h3, by rw [h2]; rfl, by rw [h3]; rfl⟩

/-- Witness of C4: a round started over old hands, with the draw 10, 9, 5, 7. -/
theorem newGame_deals_alternately_witness :
    ∃ st tl, (newGame { State.initial with
          playerCards := [card .two], dealerCards := [card .three, card .four, card .KING] }
        (.ok ⟨"d", []⟩ :: .ok ⟨"d", [card .ten, card .nine, card .five, card .seven]⟩ :: [])
        ).observable.drop 2 = st :: tl ∧
      st.playerCards = [card .ten, card .five] ∧ st.dealerCards = [card .nine, card .seven] ∧
      st.playerCards.length = 2 ∧ st.dealerCards.length = 2 :=
  newGame_deals_alternately _ ⟨"d", []⟩ ⟨"d", [card .ten, card .nine, card .five, card .seven]⟩
    (card .ten) (card .nine) (card .five) (card .seven) [] [] rfl

theorem hit_idle (s : State) (rs : List Response) (h : s.gameActive = false) :
    hit s rs = ⟨s, .returned, [], [], rs⟩ := by
  unfold hit
  simp [h]

theorem stand_idle (s : State) (rs : List Response) (h : s.gameActive = false) :
    stand s rs = ⟨s, .returned, [], [], rs⟩ := by
  unfold stand
  simp [h]

/-- C5. After a successful deal in which the player hand `[c0, c2]` scores 21,
every state observable from the deal on has `gameActive = false` and the
player hand `[c0, c2]`, so `hit` and `stand` do nothing there; and when the
dealer draws succeed up to the first dealer score of 17 or more, `newGame`
returns with `gameActive = false` and the result `evaluate` shows for the
player hand `[c0, c2]` and the final dealer hand. -/
theorem newGame_natural (s : State) (d draw : Payload) (c0 c1 c2 c3 : Card)
    (more : List Card) (rest : List Response) (h : draw.cards = c0 :: c1 :: c2 :: c3 :: more)
    (h21 : handScore [c0, c2] = 21) :
    (∀ st, st ∈ (newGame s (.ok d :: .ok draw :: rest)).observable.drop 2 →
      st.gameActive = false ∧ st.playerCards = [c0, c2] ∧
      (∀ rs, hit st rs = ⟨st, .returned, [], [], rs⟩) ∧
      (∀ rs, stand st rs = ⟨st, .returned, [], [], rs⟩)) ∧
    (∀ (cs : List Card) (pre rest' : List Response), rest = pre ++ rest' →
      pre.map served = cs.map some →
      (∀ j, j < cs.length → handScore ([c1, c3] ++ cs.take j) < 17) →
      17 ≤ handScore ([c1, c3] ++ cs) →
      (newGame s (.ok d :: .ok draw :: rest)).completion = .returned ∧
      (newGame s (.ok d :: .ok draw :: rest)).final.gameActive = false ∧
      (newGame s (.ok d :: .ok draw :: rest)).rest = rest' ∧
      ∃ st, (newGame s (.ok d :: .ok draw :: rest)).final = evaluate st ∧
        st.playerCards = [c0, c2] ∧ st.dealerCards = [c1, c3] ++ cs ∧
        st.gameActive = false) := by
  constructor
  · intro st hst
    obtain ⟨hp, -, hg⟩ := (newGame_after_deal s d draw c0 c1 c2 c3 more rest h).2 st hst
    exact ⟨hg h21, hp, fun rs => hit_idle st rs (hg h21), fun rs => stand_idle st rs (hg h21)⟩
  · intro cs pre rest' hrest hpre hbefore hstop
    subst hrest
    obtain ⟨s1, req, hrun, -, -, -⟩ := newGame_ok s d (.ok draw :: (pre ++ rest'))
    rw [hrun, deal_cards s1 draw c0 c1 c2 c3 more _ h, if_pos h21]
    obtain ⟨hf, hc, -, hrest⟩ := dealerLoop_run cs (dealerStart (dealHands c0 c1 c2 c3 s1))
      pre rest' hpre (by simpa using hbefore) (by simpa using hstop)
    have hret : (((dealerTurn (dealHands c0 c1 c2 c3 s1) (pre ++ rest')).after
        [.draw s1.deckId 4] [s1]).after [req] [startDealing s]).completion = .returned := by
      simpa [dealerTurn] using hc
    rw [caught_of_returned _ hret]
    refine ⟨hret, ?_, ?_, pushDealerAll cs (dealerStart (dealHands c0 c1 c2 c3 s1)), ?_, ?_, ?_, ?_⟩
    · simp [dealerTurn, hf]
    · simpa [dealerTurn] using hrest
    · simpa [dealerTurn] using hf
    · simp
    · simp
    · simp

/-- Witness of C5: the deal ACE, 10, KING, 8 gives the player 21; the dealer
stands on 18 and the round is settled as a blackjack win. -/
theorem newGame_natural_witness :
    (newGame State.initial
      (.ok ⟨"d", []⟩ :: .ok ⟨"d", [card .ACE, card .ten, card .KING, card .eight]⟩ :: [])
      ).completion = .returned ∧
    (newGame State.initial
      (.ok ⟨"d", []⟩ :: .ok ⟨"d", [card .ACE, card .ten, card .KING, card .eight]⟩ :: [])
      ).final.gameActive = false ∧
    (newGame State.initial
      (.ok ⟨"d", []⟩ :: .ok ⟨"d", [card .ACE, card .ten, card .KING, card .eight]⟩ :: [])
      ).final.resultText = "Blackjack, ganaste" :=
  have h := (newGame_natural State.initial ⟨"d", []⟩
    ⟨"d", [card .ACE, card .ten, card .KING, card .eight]⟩
    (card .ACE) (card .ten) (card .KING) (card .eight) [] [] rfl (by decide)).2
      [] [] [] rfl rfl (fun j hj => absurd hj (by simp)) (by decide)
  ⟨h.1, h.2.1, by decide⟩

/-! ## The player's actions -/

theorem hit_draw (s : State) (body : Payload) (c : Card) (more : List Card)
    (rest : List Response) (hact : s.gameActive = true) (hb : body.cards = c :: more) :
    hit s (.ok body :: rest) =
      if handScore (s.playerCards ++ [c]) > 21 then
        ⟨showResult "lose" "Te pasaste"
            { pushPlayer c (setStatus "Pidiendo carta..." (setButtons false s)) with
              gameActive := false },
          .returned, [.draw s.deckId 1], [setStatus "Pidiendo carta..." (setButtons false s)],
          rest⟩
      else if handScore (s.playerCards ++ [c]) = 21 then
        (dealerTurn (pushPlayer c (setStatus "Pidiendo carta..." (setButtons false s))) rest).after
          [.draw s.deckId 1] [setStatus "Pidiendo carta..." (setButtons false s)]
      else
        ⟨setButtons true (setStatus "Pide otra carta o plantate"
            (pushPlayer c (setStatus "Pidiendo carta..." (setButtons false s)))),
          .returned, [.draw s.deckId 1], [setStatus "Pidiendo carta..." (setButtons false s)],
          rest⟩ := by
  unfold hit
  simp only [hact, Bool.not_true, Bool.false_eq_true, if_false, hb]
  rfl

/-- C6. In the player's turn, a hit whose card takes the player over 21 ends
the round at once: the result is lose with 'Te pasaste', `gameActive` becomes
false, the only request issued is the player's draw, and the dealer hand is
what it was before the hit. -/
theorem hit_bust (s : State) (body : Payload) (c : Card) (more : List Card)
    (rest : List Response) (hact : s.gameActive = true) (hb : body.cards = c :: more)
    (hbust : handScore (s.playerCards ++ [c]) > 21) :
    (hit s (.ok body :: rest)).completion = .returned ∧
      (hit s (.ok body :: rest)).final.resultClass = "show lose" ∧
      (hit s (.ok body :: rest)).final.resultText = "Te pasaste" ∧
      (hit s (.ok body :: rest)).final.gameActive = false ∧
      (hit s (.ok body :: rest)).requests = [.draw s.deckId 1] ∧
      (hit s (.ok body :: rest)).rest = rest ∧
      (hit s (.ok body :: rest)).final.dealerCards = s.dealerCards ∧
      (hit s (.ok body :: rest)).final.playerCards = s.playerCards ++ [c] := by
  rw [hit_draw s body c more rest hact hb, if_pos hbust]
  exact ⟨rfl, rfl, rfl, rfl, rfl, rfl, rfl, rfl⟩

/-- Witness of C6: player {10, 5} hitting a 10 scores 25 and loses; the dealer
hand {9, 7} is untouched. -/
theorem hit_bust_witness :
    handScore ([card .ten, card .five] ++ [card .ten]) = 25 ∧
    (hit (inPlay [card .ten, card .five] [card .nine, card .seven])
      (.ok ⟨"d", [card .ten]⟩ :: [])).final.resultText = "Te pasaste" ∧
    (hit (inPlay [card .ten, card .five] [card .nine, card .seven])
      (.ok ⟨"d", [card .ten]⟩ :: [])).final.dealerCards = [card .nine, card .seven] :=
  have h := hit_bust (inPlay [card .ten, card .five] [card .nine, card .seven])
    ⟨"d", [card .ten]⟩ (card .ten) [] [] rfl rfl (by decide)
  ⟨by decide, h.2.2.1, h.2.2.2.2.2.2.1⟩

/-- C7. In the player's turn, a hit appends the drawn card at the end of the
player hand. When the new score is under 21 the round stays in the player's
turn: `gameActive` is still true, the dealer hand is unchanged and the only
request is the player's draw. When the new score is exactly 21 the rest of the
run is the dealer turn from the state with the new player hand, and
`gameActive` ends false. -/
theorem hit_appends (s : State) (body : Payload) (c : Card) (more : List Card)
    (rest : List Response) (hact : s.gameActive = true) (hb : body.cards = c :: more) :
    (hit s (.ok body :: rest)).final.playerCards = s.playerCards ++ [c] ∧
    (handScore (s.playerCards ++ [c]) < 21 →
      (hit s (.ok body :: rest)).completion = .returned ∧
      (hit s (.ok body :: rest)).final.gameActive = true ∧
      (hit s (.ok body :: rest)).final.dealerCards = s.dealerCards ∧
      (hit s (.ok body :: rest)).requests = [.draw s.deckId 1] ∧
      (hit s (.ok body :: rest)).rest = rest) ∧
    (handScore (s.playerCards ++ [c]) = 21 →
      (hit s (.ok body :: rest)).final.gameActive = false ∧
      ∃ s2 aw, s2.playerCards = s.playerCards ++ [c] ∧ s2.dealerCards = s.dealerCards ∧
        s2.deckId = s.deckId ∧
        hit s (.ok body :: rest) = (dealerTurn s2 rest).after [.draw s.deckId 1] [aw]) := by
  rw [hit_draw s body c more rest hact hb]
  have hfin : ∀ st, (dealerTurn st rest).final.playerCards = st.playerCards ∧
      (dealerTurn st rest).final.gameActive = false := by
    intro st
    obtain ⟨h1, h2, -, -⟩ := dealerLoop_observable rest (dealerStart st)
      (dealerTurn st rest).final (by simp [Run.observable, dealerTurn])
    exact ⟨by simpa using h1, by simpa using h2⟩
  refine ⟨?_, fun hlt => ?_, fun heq => ?_⟩
  · split_ifs
    · rfl
    · simpa using (hfin _).1
    · rfl
  · rw [if_neg (by omega), if_neg (by omega)]
    exact ⟨rfl, hact, rfl, rfl, rfl⟩
  · rw [if_neg (by omega), if_pos heq]
    exact ⟨by simpa using (hfin _).2,
      pushPlayer c (setStatus "Pidiendo carta..." (setButtons false s)),
      setStatus "Pidiendo carta..." (setButtons false s), rfl, rfl, rfl, rfl⟩

/-- Witness of C7: player {10, 5} hitting a 3 holds {10, 5, 3} = 18 and may
still act; hitting a 6 instead makes 21 and `gameActive` ends false. -/
theorem hit_appends_witness :
    (hit (inPlay [card .ten, card .five] [card .nine, card .seven])
      (.ok ⟨"d", [card .three]⟩ :: [])).final.playerCards =
        [card .ten, card .five] ++ [card .three] ∧
    (hit (inPlay [card .ten, card .five] [card .nine, card .seven])
      (.ok ⟨"d", [card .three]⟩ :: [])).final.gameActive = true ∧
    (hit (inPlay [card .ten, card .five] [card .nine, card .seven])
      (.ok ⟨"d", [card .six]⟩ :: [])).final.gameActive = false :=
  have h3 := hit_appends (inPlay [card .ten, card .five] [card .nine, card .seven])
    ⟨"d", [card .three]⟩ (card .three) [] [] rfl rfl
  have h6 := hit_appends (inPlay [card .ten, card .five] [card .nine, card .seven])
    ⟨"d", [card .six]⟩ (card .six) [] [] rfl rfl
  ⟨h3.1, (h3.2.1 (by decide)).2.1, (h6.2.2 (by decide)).1⟩

/-- C8. When `gameActive` is false (dealer turn or settled round), `hit`
returns at once: the state is unchanged (both hands, `gameActive`, the deck
handle and the page), no request is issued and no response is consumed. -/
theorem hit_inactive (s : State) (rs : List Response) (h : s.gameActive = false) :
    (hit s rs).final = s ∧ (hit s rs).requests = [] ∧ (hit s rs).rest = rs ∧
      (hit s rs).completion = .returned ∧ (hit s rs).awaits = [] := by
  unfold hit
  simp [h]

/-- Witness of C8: a hit on a settled round with a response ready. -/
theorem hit_inactive_witness :
    (hit (idle [card .ten, card .five] [card .nine, card .eight])
      (.ok ⟨"d", [card .six]⟩ :: [])).final =
        idle [card .ten, card .five] [card .nine, card .eight] ∧
    (hit (idle [card .ten, card .five] [card .nine, card .eight])
      (.ok ⟨"d", [card .six]⟩ :: [])).requests = [] :=
  have h := hit_inactive (idle [card .ten, card .five] [card .nine, card .eight])
    (.ok ⟨"d", [card .six]⟩ :: []) rfl
  ⟨h.1, h.2.1⟩

/-! ## Failure while dealing -/

theorem newGame_first_fails (s : State) (rest : List Response) :
    newGame s (.fail :: rest) =
      ⟨catchError (startDealing s), .returned,
        [if noDeck s.deckId then .newShuffle 6 else .shuffle (s.deckId.getD "")],
        [startDealing s], rest⟩ := by
  unfold newGame tryNewGame
  by_cases h : noDeck s.deckId
  · have h' : noDeck (startDealing s).deckId = true := h
    simp only [h', h, if_true]
    rfl
  · have h' : ¬ noDeck (startDealing s).deckId = true := h
    simp only [h', h, if_false]
    rfl

theorem newGame_draw_fails (s : State) (d : Payload) (rest : List Response) :
    (newGame s (.ok d :: .fail :: rest)).completion = .returned ∧
      (newGame s (.ok d :: .fail :: rest)).final.deckId = none ∧
      (newGame s (.ok d :: .fail :: rest)).final.gameActive = s.gameActive ∧
      (newGame s (.ok d :: .fail :: rest)).final.playerCards = s.playerCards ∧
      (newGame s (.ok d :: .fail :: rest)).final.dealerCards = s.dealerCards ∧
      (newGame s (.ok d :: .fail :: rest)).requests.length = 2 ∧
      (newGame s (.ok d :: .fail :: rest)).rest = rest := by
  obtain ⟨s1, req, hrun, hp, hd, hg⟩ := newGame_ok s d (.fail :: rest)
  rw [hrun]
  simp [deal, Run.caught, Run.after, hp, hd, hg]

theorem newGame_first_request (s : State) (rs : List Response) (h : s.deckId = none) :
    (newGame s rs).requests.head? = some (.newShuffle 6) := by
  have hn : noDeck (startDealing s).deckId = true := by
    show noDeck s.deckId = true
    rw [h]
    rfl
  obtain ⟨-, -, -, h4, -, -⟩ := caught_fields (tryNewGame (startDealing s) rs)
  unfold newGame
  rw [h4]
  unfold tryNewGame
  rw [if_pos hn]
  cases rs with
  | nil => rfl
  | cons r rest =>
    cases r with
    | fail => rfl
    | ok d => rfl

/-- C9. When `newGame` is invoked with no round in play and a request of the
dealing step fails (creating the deck or reshuffling it, or the 4-card draw),
the round does not start: `newGame` returns with `deckId` null, `gameActive`
false and both hands as they were; no further request is issued, and the next
`newGame` begins by requesting a fresh six-deck shoe. -/
theorem newGame_failure (s : State) (rs : List Response) (hidle : s.gameActive = false)
    (hfail : (∃ rest, rs = .fail :: rest) ∨ (∃ d rest, rs = .ok d :: .fail :: rest)) :
    (newGame s rs).completion = .returned ∧
      (newGame s rs).final.deckId = none ∧
      (newGame s rs).final.gameActive = false ∧
      (newGame s rs).final.playerCards = s.playerCards ∧
      (newGame s rs).final.dealerCards = s.dealerCards ∧
      (newGame s rs).requests.length + (newGame s rs).rest.length = rs.length ∧
      ∀ rs', (newGame (newGame s rs).final rs').requests.head? = some (.newShuffle 6) := by
  have key : (newGame s rs).completion = .returned ∧
      (newGame s rs).final.deckId = none ∧
      (newGame s rs).final.gameActive = false ∧
      (newGame s rs).final.playerCards = s.playerCards ∧
      (newGame s rs).final.dealerCards = s.dealerCards ∧
      (newGame s rs).requests.length + (newGame s rs).rest.length = rs.length := by
    rcases hfail with ⟨rest, rfl⟩ | ⟨d, rest, rfl⟩
    · rw [newGame_first_fails]
      refine ⟨rfl, rfl, ?_, rfl, rfl, ?_⟩
      · simpa using hidle
      · simp
        omega
    · obtain ⟨h1, h2, h3, h4, h5, h6, h7⟩ := newGame_draw_fails s d rest
      refine ⟨h1, h2, by rw [h3, hidle], h4, h5, ?_⟩
      rw [h6, h7]
      simp
      omega
  obtain ⟨k1, k2, k3, k4, k5, k6⟩ := key
  exact ⟨k1, k2, k3, k4, k5, k6, fun rs' => newGame_first_request _ rs' k2⟩

/-- Witness of C9: the deck is created but the 4-card draw fails. -/
theorem newGame_failure_witness :
    (newGame (idle [card .ten, card .five] [card .nine, card .eight])
      [.ok ⟨"e", []⟩, .fail]).final.deckId = none ∧
    (newGame (idle [card .ten, card .five] [card .nine, card .eight])
      [.ok ⟨"e", []⟩, .fail]).final.gameActive = false ∧
    (newGame (idle [card .ten, card .five] [card .nine, card .eight])
      [.ok ⟨"e", []⟩, .fail]).final.playerCards = [card .ten, card .five] :=
  have h := newGame_failure (idle [card .ten, card .five] [card .nine, card .eight])
    [.ok ⟨"e", []⟩, .fail] rfl (Or.inr ⟨⟨"e", []⟩, [], rfl⟩)
  ⟨h.2.1, h.2.2.1, h.2.2.2.1⟩

/-! ## Scoring: hands without an ace, and the choice among ace valuations -/

theorem cardValue_eq_baseValue (c : Card) : cardValue c = baseValue c.value := by
  obtain ⟨v, su⟩ := c
  cases v <;> rfl

theorem aceCount_eq_zero (hand : List Card) (h : ∀ c ∈ hand, c.value ≠ Value.ACE) :
    aceCount hand = 0 := by
  unfold aceCount
  rw [List.length_eq_zero, List.filter_eq_nil_iff]
  intro c hc
  simpa using h c hc

/-- C11. A hand without an ace scores the plain sum of its base values (face
value for 2 to 10, 10 for JACK, QUEEN and KING), with no adjustment even when
the sum is above 21; the empty hand scores 0. -/
theorem handScore_no_ace :
    (∀ hand : List Card, (∀ c ∈ hand, c.value ≠ Value.ACE) → handScore hand = baseSum hand) ∧
    handScore [] = 0 := by
  refine ⟨fun hand h => ?_, rfl⟩
  have hsum : (hand.map cardValue).sum = baseSum hand := by
    unfold baseSum
    congr 1
    exact List.map_congr_left (fun c _ => cardValue_eq_baseValue c)
  unfold handScore
  rw [foldl_scoreStep, aceCount_eq_zero hand h]
  simp [aceLoop, hsum]

/-- Witness of C11: {KING, QUEEN, 5} has no ace and scores 25, above 21. -/
theorem handScore_no_ace_witness :
    handScore [card .KING, card .QUEEN, card .five] =
        baseSum [card .KING, card .QUEEN, card .five] ∧
      baseSum [card .KING, card .QUEEN, card .five] = 25 :=
  ⟨handScore_no_ace.1 [card .KING, card .QUEEN, card .five] (by decide), by decide⟩

/-- Counterexample to C12: for {ACE, 5} the totals are 6 and 16; the least
total not above 21 is 6, yet the score is 16. -/
theorem handScore_not_minimal :
    totals [card .ACE, card .five] = [6, 16] ∧
      handScore [card .ACE, card .five] = 16 ∧
      ¬ (∀ t ∈ totals [card .ACE, card .five], t ≤ 21 →
        handScore [card .ACE, card .five] ≤ t) := by
  decide

/-- C12, amended. When some way of valuing the aces gives a total of 21 or
less, the score is the greatest such total; when every way gives a total above
21, the score is the least total of all (every ace valued 1). -/
theorem handScore_max_or_least (hand : List Card) :
    ((∃ t ∈ totals hand, t ≤ 21) →
      handScore hand ∈ totals hand ∧ handScore hand ≤ 21 ∧
        ∀ t ∈ totals hand, t ≤ 21 → t ≤ handScore hand) ∧
    ((∀ t ∈ totals hand, 21 < t) →
      handScore hand ∈ totals hand ∧ ∀ t ∈ totals hand, handScore hand ≤ t) := by
  obtain ⟨j, hj, hv, hle, hmax⟩ := aceLoop_spec (lowTotal hand) (aceCount hand)
  have hmem : handScore hand ∈ totals hand := by
    rw [handScore_eq, hv]
    exact (mem_totals hand _).2 ⟨j, hj, rfl⟩
  refine ⟨fun ⟨t, ht, h21⟩ => ⟨hmem, ?_, ?_⟩, fun hall => ⟨hmem, ?_⟩⟩
  · obtain ⟨i, -, rfl⟩ := (mem_totals hand t).1 ht
    rw [handScore_eq, hv]
    rcases hle with rfl | h
    · omega
    · exact h
  · intro u hu hu21
    obtain ⟨i, hi, rfl⟩ := (mem_totals hand u).1 hu
    have := hmax i hi hu21
    rw [handScore_eq, hv]
    omega
  · intro u hu
    obtain ⟨i, -, rfl⟩ := (mem_totals hand u).1 hu
    have hbig := hall _ hmem
    rw [handScore_eq, hv] at hbig ⊢
    rcases hle with rfl | h
    · omega
    · omega

/-- Witness of C12, amended: {ACE, 5} scores 16, the greatest total not above
21; {KING, QUEEN, 5, ACE} scores 26, the least of its totals. -/
theorem handScore_max_or_least_witness :
    (handScore [card .ACE, card .five] = 16 ∧
      ∀ t ∈ totals [card .ACE, card .five], t ≤ 21 → t ≤ handScore [card .ACE, card .five]) ∧
    (handScore [card .KING, card .QUEEN, card .five, card .ACE] = 26 ∧
      ∀ t ∈ totals [card .KING, card .QUEEN, card .five, card .ACE],
        handScore [card .KING, card .QUEEN, card .five, card .ACE] ≤ t) :=
  ⟨⟨by decide, ((handScore_max_or_least [card .ACE, card .five]).1
      ⟨6, by decide, by decide⟩).2.2⟩,
   ⟨by decide, ((handScore_max_or_least [card .KING, card .QUEEN, card .five, card .ACE]).2
      (by decide)).2⟩⟩

/-! ## The outcome rule: ties and the blackjack rule -/

theorem showResult_class (type msg : String) (s : State) :
    (showResult type msg s).resultClass = "show " ++ type ∧
      (showResult type msg s).resultText = msg :=
  ⟨rfl, rfl⟩

/-- C18. The result of `evaluate` is a tie exactly when the two scores are
equal and not above 21. Whenever both hands score 21 the result is a tie,
whatever the number of cards; when both hands score above 21 the result is
lose. -/
theorem evaluate_tie_iff (s : State) :
    ((evaluate s).resultClass = "show tie" ↔
      handScore s.playerCards = handScore s.dealerCards ∧ handScore s.playerCards ≤ 21) ∧
    (handScore s.playerCards = 21 → handScore s.dealerCards = 21 →
      (evaluate s).resultClass = "show tie" ∧ (evaluate s).resultText = "Empate") ∧
    (handScore s.playerCards > 21 → handScore s.dealerCards > 21 →
      (evaluate s).resultClass = "show lose" ∧ (evaluate s).resultText = "Te pasaste") := by
  have hwin : ("show " ++ "win" = "show tie") = False := by decide
  have hlose : ("show " ++ "lose" = "show tie") = False := by decide
  have htie : ("show " ++ "tie" = "show tie") = True := by decide
  refine ⟨?_, fun hp hd => ?_, fun hp hd => ?_⟩
  · unfold evaluate
    simp only []
    split_ifs <;> simp only [showResult_class, hwin, hlose, htie] <;> constructor <;>
      intro h <;> first | trivial | omega
  · unfold evaluate
    simp only [hp, hd]
    simp [showResult]
  · unfold evaluate
    simp only []
    rw [if_neg (by omega), if_pos hp]
    exact ⟨rfl, rfl⟩

/-- Witness of C18: a player natural {ACE, KING} against a dealer 21 made of
{7, 7, 7} is a tie; player {10, 9, 5} against dealer {10, 6, 8}, both above 21,
is lose. -/
theorem evaluate_tie_iff_witness :
    ((evaluate (idle [card .ACE, card .KING] [card .seven, card .seven, card .seven])).resultClass
        = "show tie" ∧
      (evaluate (idle [card .ACE, card .KING]
        [card .seven, card .seven, card .seven])).resultText = "Empate") ∧
    ((evaluate (idle [card .ten, card .nine, card .five]
        [card .ten, card .six, card .eight])).resultClass = "show lose" ∧
      (evaluate (idle [card .ten, card .nine, card .five]
        [card .ten, card .six, card .eight])).resultText = "Te pasaste") :=
  ⟨(evaluate_tie_iff (idle [card .ACE, card .KING]
      [card .seven, card .seven, card .seven])).2.1 (by decide) (by decide),
   (evaluate_tie_iff (idle [card .ten, card .nine, card .five]
      [card .ten, card .six, card .eight])).2.2 (by decide) (by decide)⟩

/-- C20. The class (win, lose or tie) `evaluate` shows is the class shown by
the rule list without its first rule; the messages differ only when the
blackjack rule fires, where 'Blackjack, ganaste' replaces 'Ganaste' or
'El crupier se paso, ganaste'. -/
theorem evaluate_class_without_blackjack (s : State) :
    (evaluate s).resultClass = (evaluateNoBlackjack s).resultClass ∧
    ((evaluate s).resultText = (evaluateNoBlackjack s).resultText ∨
      ((evaluate s).resultText = "Blackjack, ganaste" ∧
        (evaluate s).resultClass = "show win" ∧
        ((evaluateNoBlackjack s).resultText = "Ganaste" ∨
          (evaluateNoBlackjack s).resultText = "El crupier se paso, ganaste"))) := by
  unfold evaluate evaluateNoBlackjack
  simp only []
  by_cases h1 : (handScore s.playerCards = 21 ∧ s.playerCards.length = 2) ∧
      handScore s.dealerCards ≠ 21
  · rw [if_pos h1, if_neg (by omega)]
    by_cases h3 : handScore s.dealerCards > 21
    · rw [if_pos h3]
      exact ⟨rfl, Or.inr ⟨rfl, rfl, Or.inr rfl⟩⟩
    · rw [if_neg h3, if_pos (by omega)]
      exact ⟨rfl, Or.inr ⟨rfl, rfl, Or.inl rfl⟩⟩
  · rw [if_neg h1]
    exact ⟨rfl, Or.inl rfl⟩

/-! ## The dealer turn: frame, termination and the final score -/

theorem lowValue_bounds (c : Card) : 1 ≤ lowValue c ∧ lowValue c ≤ 10 := by
  obtain ⟨v, su⟩ := c
  cases v <;> cases su <;> decide

theorem lowTotal_append (hand : List Card) (c : Card) :
    lowTotal (hand ++ [c]) = lowTotal hand + lowValue c := by
  simp [lowTotal]

theorem lowTotal_bounds (hand : List Card) :
    hand.length ≤ lowTotal hand ∧ lowTotal hand ≤ 10 * hand.length := by
  induction hand with
  | nil => simp [lowTotal]
  | cons c cs ih =>
    have hc := lowValue_bounds c
    simp only [lowTotal, List.map_cons, List.sum_cons, List.length_cons] at ih ⊢
    omega

theorem lowTotal_le_handScore (hand : List Card) : lowTotal hand ≤ handScore hand := by
  obtain ⟨j, -, hv, -, -⟩ := aceLoop_spec (lowTotal hand) (aceCount hand)
  rw [handScore_eq, hv]
  omega

theorem handScore_le_of_lowTotal (hand : List Card) (n : Nat) (h21 : 21 ≤ n)
    (h : lowTotal hand ≤ n) : handScore hand ≤ n := by
  obtain ⟨j, -, hv, hle, -⟩ := aceLoop_spec (lowTotal hand) (aceCount hand)
  rw [handScore_eq, hv]
  rcases hle with rfl | hle <;> omega

/-- A card pushed on a hand scoring at most 16 gives a hand scoring at most 26. -/
theorem handScore_push_le (hand : List Card) (c : Card) (h : handScore hand ≤ 16) :
    handScore (hand ++ [c]) ≤ 26 := by
  apply handScore_le_of_lowTotal _ 26 (by omega)
  have h1 := lowTotal_le_handScore hand
  have h2 := lowValue_bounds c
  rw [lowTotal_append]
  omega

theorem handScore_two_le (hand : List Card) (h : hand.length = 2) : handScore hand ≤ 21 := by
  apply handScore_le_of_lowTotal _ 21 (le_refl _)
  have := (lowTotal_bounds hand).2
  omega

theorem allServe_cons (r : Response) (rs : List Response) (h : allServe (r :: rs) = true) :
    (∃ body c more, r = .ok body ∧ body.cards = c :: more) ∧ allServe rs = true := by
  simp only [allServe, List.all_cons, Bool.and_eq_true] at h ⊢
  refine ⟨?_, h.2⟩
  obtain ⟨c, hc⟩ := Option.isSome_iff_exists.1 h.1
  obtain ⟨body, more, hr, hb⟩ := served_eq_some hc
  exact ⟨body, c, more, hr, hb⟩

/-- On a script of successful draws long enough to take the ace-low total of
the dealer hand to 17, the dealer loop returns, and the number of draws plus
the ace-low total it started from is at most 17 when a draw was made. -/
theorem dealerLoop_terminates (rs : List Response) :
    ∀ s : State, allServe rs = true → 17 ≤ lowTotal s.dealerCards + rs.length →
      (dealerLoop s rs).completion = .returned ∧
        ((dealerLoop s rs).requests.length = 0 ∨
          (dealerLoop s rs).requests.length + lowTotal s.dealerCards ≤ 17) := by
  induction rs with
  | nil =>
    intro s _ hlong
    have hlow := lowTotal_le_handScore s.dealerCards
    rw [dealerLoop_stop s [] (by simpa using le_trans hlong hlow)]
    exact ⟨rfl, Or.inl rfl⟩
  | cons r rest ih =>
    intro s hserve hlong
    by_cases h : handScore s.dealerCards < 17
    · obtain ⟨⟨body, c, more, rfl, hb⟩, hrest⟩ := allServe_cons r rest hserve
      have hlow := lowTotal_le_handScore s.dealerCards
      have hc := lowValue_bounds c
      have hpush : lowTotal (pushDealer c s).dealerCards = lowTotal s.dealerCards + lowValue c :=
        lowTotal_append s.dealerCards c
      obtain ⟨h1, h2⟩ := ih (pushDealer c s) hrest (by
        rw [hpush]
        simp only [List.length_cons] at hlong
        omega)
      rw [dealerLoop_draw s body c more rest h hb]
      refine ⟨by simpa using h1, Or.inr ?_⟩
      simp only [after_fields, List.length_append, List.length_singleton]
      rcases h2 with h2 | h2
      · omega
      · omega
    · rw [dealerLoop_stop s _ (by omega)]
      exact ⟨rfl, Or.inl rfl⟩

/-- When the dealer loop starts from a score of at most 26 and returns, the
final dealer score lies between 17 and 26. -/
theorem dealerLoop_score_bound (rs : List Response) :
    ∀ s : State, handScore s.dealerCards ≤ 26 → (dealerLoop s rs).completion = .returned →
      17 ≤ handScore (dealerLoop s rs).final.dealerCards ∧
        handScore (dealerLoop s rs).final.dealerCards ≤ 26 := by
  induction rs with
  | nil =>
    intro s h26 hret
    by_cases h : handScore s.dealerCards < 17
    · rw [dealerLoop, if_pos h] at hret
      simp at hret
    · rw [dealerLoop_stop s _ (by omega)]
      simp only [evaluate_fields]
      omega
  | cons r rest ih =>
    intro s h26 hret
    by_cases h : handScore s.dealerCards < 17
    · cases r with
      | fail =>
        rw [dealerLoop, if_pos h] at hret
        simp at hret
      | ok body =>
        cases hb : body.cards with
        | nil =>
          rw [dealerLoop, if_pos h] at hret
          simp [hb] at hret
        | cons c more =>
          rw [dealerLoop_draw s body c more rest h hb] at hret ⊢
          have hpush : handScore (pushDealer c s).dealerCards ≤ 26 :=
            handScore_push_le s.dealerCards c (by omega)
          simpa using ih (pushDealer c s) hpush (by simpa using hret)
    · rw [dealerLoop_stop s _ (by omega)]
      simp only [evaluate_fields]
      omega

/-- C14. From the player's turn, on a script whose first responses serve the
cards `cs` (the shortest run taking the dealer to 17 or more), `stand` returns
with the player hand unchanged and the dealer hand extended by `cs`; in every
state observable during the run the player hand is the one before the stand
and the dealer hand starts with the dealer hand before the stand. -/
theorem stand_keeps_player (s : State) (cs : List Card) (pre rest : List Response)
    (hact : s.gameActive = true) (hpre : pre.map served = cs.map some)
    (hbefore : ∀ j, j < cs.length → handScore (s.dealerCards ++ cs.take j) < 17)
    (hstop : 17 ≤ handScore (s.dealerCards ++ cs)) :
    (stand s (pre ++ rest)).completion = .returned ∧
      (stand s (pre ++ rest)).final.playerCards = s.playerCards ∧
      (stand s (pre ++ rest)).final.dealerCards = s.dealerCards ++ cs ∧
      (stand s (pre ++ rest)).final.gameActive = false ∧
      ∀ st, st ∈ (stand s (pre ++ rest)).observable →
        st.playerCards = s.playerCards ∧ ∃ t, st.dealerCards = s.dealerCards ++ t := by
  have hst : stand s (pre ++ rest) = dealerLoop (dealerStart
      (setStatus "Turno del crupier..." (setButtons false { s with gameActive := false })))
      (pre ++ rest) := by
    unfold stand dealerTurn
    simp [hact]
  rw [hst]
  obtain ⟨hf, hc, -, -⟩ := dealerLoop_run cs (dealerStart
    (setStatus "Turno del crupier..." (setButtons false { s with gameActive := false })))
    pre rest hpre hbefore hstop
  refine ⟨hc, by rw [hf]; simp, by rw [hf]; simp, by rw [hf]; simp, fun st hmem => ?_⟩
  obtain ⟨h1, -, -, t, h4⟩ := dealerLoop_observable _ _ st hmem
  exact ⟨h1, t, h4⟩

/-- Witness of C14: the player stands on {10, 7}; the dealer draws a 10 on
{6, 6}. -/
theorem stand_keeps_player_witness :
    (stand (inPlay [card .ten, card .seven] [card .six, card .six])
      ([.ok ⟨"d", [card .ten]⟩] ++ [])).final.playerCards = [card .ten, card .seven] ∧
    (stand (inPlay [card .ten, card .seven] [card .six, card .six])
      ([.ok ⟨"d", [card .ten]⟩] ++ [])).final.dealerCards =
        [card .six, card .six] ++ [card .ten] :=
  have h := stand_keeps_player (inPlay [card .ten, card .seven] [card .six, card .six])
    [card .ten] [.ok ⟨"d", [card .ten]⟩] [] rfl rfl
    (by intro j hj
        have hj0 : j = 0 := by simpa using hj
        subst hj0
        decide)
    (by decide)
  ⟨h.2.1, h.2.2.1⟩

/-- C15. From a dealer hand of at least 2 cards, on any script of at least 15
successful draws, the loop of `dealerTurn` ends and `dealerTurn` returns after
at most 15 draws, fewer than 17: the ace-low total is a lower bound of the
score and grows with every draw. The score itself can decrease or stay equal
when a card is added: {ACE, 5} = 16, {ACE, 5, 6} = 12, {ACE, 5, 10} = 16. -/
theorem dealerTurn_terminates (s : State) (rs : List Response)
    (hlen : 2 ≤ s.dealerCards.length) (hserve : allServe rs = true)
    (hlong : 15 ≤ rs.length) :
    (dealerTurn s rs).completion = .returned ∧
      (dealerTurn s rs).requests.length ≤ 15 ∧
      (dealerTurn s rs).requests.length < 17 ∧
      (dealerTurn s rs).requests.length + (dealerTurn s rs).rest.length = rs.length ∧
      lowTotal s.dealerCards ≤ handScore s.dealerCards ∧
      (∀ c : Card, lowTotal s.dealerCards < lowTotal (s.dealerCards ++ [c])) ∧
      handScore [card .ACE, card .five] = 16 ∧
      handScore [card .ACE, card .five, card .six] = 12 ∧
      handScore [card .ACE, card .five, card .ten] = 16 := by
  have hlow := (lowTotal_bounds s.dealerCards).1
  obtain ⟨h1, h2⟩ := dealerLoop_terminates rs (dealerStart s) hserve (by
    simp only [dealerStart_fields]
    omega)
  simp only [dealerStart_fields] at h2
  have hcount : ∀ (rs : List Response) (s : State), (dealerLoop s rs).completion = .returned →
      (dealerLoop s rs).requests.length + (dealerLoop s rs).rest.length = rs.length := by
    intro rs
    induction rs with
    | nil =>
      intro s hret
      by_cases h : handScore s.dealerCards < 17
      · rw [dealerLoop, if_pos h] at hret
        simp at hret
      · rw [dealerLoop_stop s _ (by omega)]
        rfl
    | cons r rest ih =>
      intro s hret
      by_cases h : handScore s.dealerCards < 17
      · cases r with
        | fail =>
          rw [dealerLoop, if_pos h] at hret
          simp at hret
        | ok body =>
          cases hb : body.cards with
          | nil =>
            rw [dealerLoop, if_pos h] at hret
            simp [hb] at hret
          | cons c more =>
            rw [dealerLoop_draw s body c more rest h hb] at hret ⊢
            have := ih (pushDealer c s) (by simpa using hret)
            simp only [after_fields, List.length_append, List.length_cons, List.length_nil]
            omega
      · rw [dealerLoop_stop s _ (by omega)]
        simp
  refine ⟨h1, ?_, ?_, hcount rs (dealerStart s) h1, lowTotal_le_handScore _, fun c => ?_,
    by decide, by decide, by decide⟩
  · unfold dealerTurn
    omega
  · unfold dealerTurn
    omega
  · have := lowValue_bounds c
    rw [lowTotal_append]
    omega

/-- Witness of C15: dealer {2, 2} served aces only stops after three draws, at
{2, 2, ACE, ACE, ACE} = 17. -/
theorem dealerTurn_terminates_witness :
    (dealerTurn (inPlay [card .ten, card .seven] [card .two, card .two])
      (List.replicate 15 (.ok ⟨"d", [card .ACE]⟩))).completion = .returned ∧
    (dealerTurn (inPlay [card .ten, card .seven] [card .two, card .two])
      (List.replicate 15 (.ok ⟨"d", [card .ACE]⟩))).requests.length ≤ 15 ∧
    (dealerTurn (inPlay [card .ten, card .seven] [card .two, card .two])
      (List.replicate 15 (.ok ⟨"d", [card .ACE]⟩))).requests.length = 3 :=
  have h := dealerTurn_terminates (inPlay [card .ten, card .seven] [card .two, card .two])
    (List.replicate 15 (.ok ⟨"d", [card .ACE]⟩)) (by decide) (by decide) (by decide)
  ⟨h.1, h.2.1, by decide⟩

/-- C19. From a dealer hand of exactly 2 cards, on any script of at least 15
successful draws, `dealerTurn` returns and the dealer score it hands to
`evaluate` lies between 17 and 26: a 2-card hand scores at most 21, and a draw
is made only from a score of at most 16. -/
theorem dealerTurn_final_score (s : State) (rs : List Response)
    (hlen : s.dealerCards.length = 2) (hserve : allServe rs = true)
    (hlong : 15 ≤ rs.length) :
    (dealerTurn s rs).completion = .returned ∧
      17 ≤ handScore (dealerTurn s rs).final.dealerCards ∧
      handScore (dealerTurn s rs).final.dealerCards ≤ 26 := by
  have hlow := (lowTotal_bounds s.dealerCards).1
  obtain ⟨h1, -⟩ := dealerLoop_terminates rs (dealerStart s) hserve (by
    simp only [dealerStart_fields]
    omega)
  have h21 := handScore_two_le s.dealerCards hlen
  obtain ⟨h17, h26⟩ := dealerLoop_score_bound rs (dealerStart s)
    (by simp only [dealerStart_fields]; omega) h1
  exact ⟨h1, h17, h26⟩

/-- Witness of C19: dealer {6, KING} = 16 served tens busts at 26. -/
theorem dealerTurn_final_score_witness :
    (dealerTurn (inPlay [card .ten, card .seven] [card .six, card .KING])
      (List.replicate 15 (.ok ⟨"d", [card .ten]⟩))).completion = .returned ∧
    handScore (dealerTurn (inPlay [card .ten, card .seven] [card .six, card .KING])
      (List.replicate 15 (.ok ⟨"d", [card .ten]⟩))).final.dealerCards ≤ 26 ∧
    handScore (dealerTurn (inPlay [card .ten, card .seven] [card .six, card .KING])
      (List.replicate 15 (.ok ⟨"d", [card .ten]⟩))).final.dealerCards = 26 :=
  have h := dealerTurn_final_score (inPlay [card .ten, card .seven] [card .six, card .KING])
    (List.replicate 15 (.ok ⟨"d", [card .ten]⟩)) (by decide) (by decide) (by decide)
  ⟨h.1, h.2.2, by decide⟩

/-! ## Guards, failures in a round, and the invariant of the player's turn -/

/-- Counterexample to C13: in the player's turn with {10, 5} against {9, 7},
`newGame` issues the reshuffle and the draw and replaces both hands. -/
theorem newGame_unguarded :
    (inPlay [card .ten, card .five] [card .nine, card .seven]).gameActive = true ∧
    (newGame (inPlay [card .ten, card .five] [card .nine, card .seven])
      [.ok ⟨"d", []⟩, .ok ⟨"d", [card .two, card .three, card .four, card .six]⟩]).requests =
        [.shuffle "d", .draw (some "d") 4] ∧
    (newGame (inPlay [card .ten, card .five] [card .nine, card .seven])
      [.ok ⟨"d", []⟩, .ok ⟨"d", [card .two, card .three, card .four, card .six]⟩]
      ).final.playerCards = [card .two, card .four] ∧
    (newGame (inPlay [card .ten, card .five] [card .nine, card .seven])
      [.ok ⟨"d", []⟩, .ok ⟨"d", [card .two, card .three, card .four, card .six]⟩]
      ).final.dealerCards = [card .three, card .six] := by
  decide

/-- With a successful first response, `newGame` is the deal after one request:
the request for a fresh shoe when there is no deck handle (the handle is then
taken from the response), the reshuffle of the deck otherwise. -/
theorem newGame_ok_request (s : State) (d : Payload) (rs : List Response) :
    ∃ s1, s1.deckId = (if noDeck s.deckId then some d.deck_id else s.deckId) ∧
      newGame s (.ok d :: rs) =
        ((deal s1 rs).after
          [if noDeck s.deckId then .newShuffle 6 else .shuffle (s.deckId.getD "")]
          [startDealing s]).caught := by
  by_cases h : noDeck s.deckId = true
  · have h' : noDeck (startDealing s).deckId = true := h
    refine ⟨{ startDealing s with deckId := some d.deck_id }, by rw [if_pos h], ?_⟩
    unfold newGame tryNewGame
    rw [if_pos h', if_pos h]
  · have h' : ¬ noDeck (startDealing s).deckId = true := h
    refine ⟨startDealing s, by rw [if_neg h]; rfl, ?_⟩
    unfold newGame tryNewGame
    rw [if_neg h', if_neg h]
    rfl

/-- C13, amended. `hit` and `stand` do nothing when `gameActive` is false.
`newGame` has no such guard: whatever `gameActive` holds, true included, with
its two dealing requests successful it issues them and replaces the player
hand by `[c0, c2]` and the dealer hand by `[c1, c3]`, followed by the dealer's
draws when the player was dealt 21. The page gates it instead: when a
successful deal with a player score other than 21, or a successful hit in the
player's turn with a new score under 21, leaves `gameActive` true, the New
button is disabled and the Hit and Stand buttons are enabled; a deal of 21 and
a hit to 21 or more end with `gameActive` false. -/
theorem phase_guards :
    (∀ (s : State) (rs : List Response), s.gameActive = false →
      hit s rs = ⟨s, .returned, [], [], rs⟩ ∧ stand s rs = ⟨s, .returned, [], [], rs⟩) ∧
    (∀ (s : State) (d draw : Payload) (c0 c1 c2 c3 : Card) (more : List Card)
      (rest : List Response), draw.cards = c0 :: c1 :: c2 :: c3 :: more →
      (newGame s (.ok d :: .ok draw :: rest)).requests.take 2 =
        [if noDeck s.deckId then .newShuffle 6 else .shuffle (s.deckId.getD ""),
          .draw (if noDeck s.deckId then some d.deck_id else s.deckId) 4] ∧
      (newGame s (.ok d :: .ok draw :: rest)).final.playerCards = [c0, c2] ∧
      (∃ t, (newGame s (.ok d :: .ok draw :: rest)).final.dealerCards = [c1, c3] ++ t) ∧
      (handScore [c0, c2] ≠ 21 →
        (newGame s (.ok d :: .ok draw :: rest)).completion = .returned ∧
        (newGame s (.ok d :: .ok draw :: rest)).requests.length = 2 ∧
        (newGame s (.ok d :: .ok draw :: rest)).final.dealerCards = [c1, c3] ∧
        (newGame s (.ok d :: .ok draw :: rest)).final.gameActive = true ∧
        (newGame s (.ok d :: .ok draw :: rest)).final.newDisabled = true ∧
        (newGame s (.ok d :: .ok draw :: rest)).final.hitDisabled = false ∧
        (newGame s (.ok d :: .ok draw :: rest)).final.standDisabled = false) ∧
      (handScore [c0, c2] = 21 →
        (newGame s (.ok d :: .ok draw :: rest)).final.gameActive = false)) ∧
    (∀ (s : State) (body : Payload) (c : Card) (more : List Card) (rest : List Response),
      s.gameActive = true → body.cards = c :: more →
      (handScore (s.playerCards ++ [c]) < 21 →
        (hit s (.ok body :: rest)).completion = .returned ∧
        (hit s (.ok body :: rest)).final.gameActive = true ∧
        (hit s (.ok body :: rest)).final.newDisabled = true ∧
        (hit s (.ok body :: rest)).final.hitDisabled = false ∧
        (hit s (.ok body :: rest)).final.standDisabled = false) ∧
      (21 ≤ handScore (s.playerCards ++ [c]) →
        (hit s (.ok body :: rest)).final.gameActive = false)) := by
  refine ⟨fun s rs h => ⟨hit_idle s rs h, stand_idle s rs h⟩, ?_, ?_⟩
  · intro s d draw c0 c1 c2 c3 more rest hdraw
    obtain ⟨s1, hdeck, hrun⟩ := newGame_ok_request s d (.ok draw :: rest)
    rw [hrun, deal_cards s1 draw c0 c1 c2 c3 more rest hdraw, hdeck]
    by_cases h21 : handScore [c0, c2] = 21
    · rw [if_pos h21]
      obtain ⟨k1, k2, k3, k4, -, -⟩ := caught_fields
        (((dealerTurn (dealHands c0 c1 c2 c3 s1) rest).after
          [.draw (if noDeck s.deckId then some d.deck_id else s.deckId) 4] [s1]).after
          [if noDeck s.deckId then .newShuffle 6 else .shuffle (s.deckId.getD "")]
          [startDealing s])
      obtain ⟨o1, o2, -, t, o4⟩ := dealerLoop_observable rest
        (dealerStart (dealHands c0 c1 c2 c3 s1))
        (dealerTurn (dealHands c0 c1 c2 c3 s1) rest).final
        (by simp [Run.observable, dealerTurn])
      refine ⟨?_, ?_, ⟨t, ?_⟩, fun hne => absurd h21 hne, fun _ => ?_⟩
      · rw [k4]
        rfl
      · rw [k1]
        simpa using o1
      · rw [k2]
        simpa using o4
      · rw [k3]
        simpa using o2
    · rw [if_neg h21]
      exact ⟨rfl, rfl, ⟨[], rfl⟩, fun _ => ⟨rfl, rfl, rfl, rfl, rfl, rfl, rfl⟩,
        fun h => absurd h h21⟩
  · intro s body c more rest hact hb
    rw [hit_draw s body c more rest hact hb]
    refine ⟨fun hlt => ?_, fun hge => ?_⟩
    · rw [if_neg (by omega), if_neg (by omega)]
      exact ⟨rfl, hact, rfl, rfl, rfl⟩
    · by_cases hgt : handScore (s.playerCards ++ [c]) > 21
      · rw [if_pos hgt]
        rfl
      · rw [if_neg hgt, if_pos (by omega)]
        obtain ⟨-, o2, -, -⟩ := dealerLoop_observable rest
          (dealerStart (pushPlayer c (setStatus "Pidiendo carta..." (setButtons false s))))
          (dealerTurn (pushPlayer c (setStatus "Pidiendo carta..." (setButtons false s)))
            rest).final
          (by simp [Run.observable, dealerTurn])
        simpa using o2

/-- Witness of C13, amended: a hit on a settled round does nothing; `newGame`
invoked in the player's turn over {10, 5} against {9, 7} reshuffles, draws
2, 3, 4, 6, deals {2, 4} against {3, 6} and leaves the New button disabled;
`newGame` from the state after loading does the same on a fresh shoe; a hit in
the player's turn drawing a 3 leaves the New button disabled. -/
theorem phase_guards_witness :
    hit (idle [card .ten, card .five] [card .nine, card .eight]) [.ok ⟨"d", [card .six]⟩] =
      ⟨idle [card .ten, card .five] [card .nine, card .eight], .returned, [], [],
        [.ok ⟨"d", [card .six]⟩]⟩ ∧
    (inPlay [card .ten, card .five] [card .nine, card .seven]).gameActive = true ∧
    (newGame (inPlay [card .ten, card .five] [card .nine, card .seven])
      (.ok ⟨"d", []⟩ :: .ok ⟨"d", [card .two, card .three, card .four, card .six]⟩ :: [])
      ).final.playerCards = [card .two, card .four] ∧
    (newGame (inPlay [card .ten, card .five] [card .nine, card .seven])
      (.ok ⟨"d", []⟩ :: .ok ⟨"d", [card .two, card .three, card .four, card .six]⟩ :: [])
      ).final.newDisabled = true ∧
    (newGame State.initial
      (.ok ⟨"d", []⟩ :: .ok ⟨"d", [card .two, card .three, card .four, card .six]⟩ :: [])
      ).final.newDisabled = true ∧
    (hit (inPlay [card .ten, card .five] [card .nine, card .seven])
      (.ok ⟨"d", [card .three]⟩ :: [])).final.newDisabled = true :=
  have h := phase_guards.2.1 (inPlay [card .ten, card .five] [card .nine, card .seven])
    ⟨"d", []⟩ ⟨"d", [card .two, card .three, card .four, card .six]⟩
    (card .two) (card .three) (card .four) (card .six) [] [] rfl
  have h0 := phase_guards.2.1 State.initial
    ⟨"d", []⟩ ⟨"d", [card .two, card .three, card .four, card .six]⟩
    (card .two) (card .three) (card .four) (card .six) [] [] rfl
  have hh := phase_guards.2.2 (inPlay [card .ten, card .five] [card .nine, card .seven])
    ⟨"d", [card .three]⟩ (card .three) [] [] rfl rfl
  ⟨(phase_guards.1 (idle [card .ten, card .five] [card .nine, card .eight])
      [.ok ⟨"d", [card .six]⟩] rfl).1, rfl, h.2.1,
    (h.2.2.2.1 (by decide)).2.2.2.2.1, (h0.2.2.2.1 (by decide)).2.2.2.2.1,
    (hh.1 (by decide)).2.2.1⟩

/-- C16, the code at the failing input. In the player's turn with {10, 5}
against {9, 7} on deck `"d"`, a hit whose draw fails ends with the error
thrown, `deckId` still `"d"` and `gameActive` still true; a stand whose dealer
draw fails ends with the error thrown and `deckId` still `"d"`. -/
theorem round_draw_failure_uncaught :
    (hit (inPlay [card .ten, card .five] [card .nine, card .seven]) [.fail]).completion
        = .threw ∧
    (hit (inPlay [card .ten, card .five] [card .nine, card .seven]) [.fail]).final.deckId
        = some "d" ∧
    (hit (inPlay [card .ten, card .five] [card .nine, card .seven]) [.fail]).final.gameActive
        = true ∧
    (stand (inPlay [card .ten, card .five] [card .nine, card .seven]) [.fail]).completion
        = .threw ∧
    (stand (inPlay [card .ten, card .five] [card .nine, card .seven]) [.fail]).final.deckId
        = some "d" ∧
    (stand (inPlay [card .ten, card .five] [card .nine, card .seven]) [.fail]).final.gameActive
        = false := by
  decide

theorem turnInvariant_of_fields (s s' : State) (hg : s'.gameActive = s.gameActive)
    (hp : s'.playerCards = s.playerCards) (hd : s'.dealerCards = s.dealerCards)
    (h : TurnInvariant s) : TurnInvariant s' := by
  intro hact
  rw [hp, hd]
  exact h (by rw [← hg]; exact hact)

theorem turnInvariant_of_inactive (s : State) (h : s.gameActive = false) : TurnInvariant s := by
  intro hact
  rw [h] at hact
  exact absurd hact (by decide)

theorem dealerTurn_final_inactive (s : State) (rs : List Response) :
    (dealerTurn s rs).final.gameActive = false := by
  obtain ⟨-, h2, -, -⟩ := dealerLoop_observable rs (dealerStart s)
    (dealerTurn s rs).final (by simp [Run.observable, dealerTurn])
  simpa using h2

theorem hit_turnInvariant (s : State) (rs : List Response) (h : TurnInvariant s) :
    TurnInvariant (hit s rs).final := by
  by_cases hact : s.gameActive = true
  · cases rs with
    | nil =>
      exact turnInvariant_of_fields s _ (by simp [hit, hact]) (by simp [hit, hact])
        (by simp [hit, hact]) h
    | cons r rest =>
      cases r with
      | fail =>
        exact turnInvariant_of_fields s _ (by simp [hit, hact]) (by simp [hit, hact])
          (by simp [hit, hact]) h
      | ok body =>
        cases hb : body.cards with
        | nil =>
          exact turnInvariant_of_fields s _ (by simp [hit, hact, hb]) (by simp [hit, hact, hb])
            (by simp [hit, hact, hb]) h
        | cons c more =>
          rw [hit_draw s body c more rest hact hb]
          split_ifs with h1 h2
          · exact turnInvariant_of_inactive _ rfl
          · exact turnInvariant_of_inactive _ (by
              simpa using dealerTurn_final_inactive _ rest)
          · obtain ⟨-, hlen, hdl⟩ := h hact
            intro _
            refine ⟨?_, ?_, hdl⟩
            · show handScore (s.playerCards ++ [c]) < 21
              omega
            · show 2 ≤ (s.playerCards ++ [c]).length
              simp
              omega
  · have hf : s.gameActive = false := by simpa using hact
    rw [hit_idle s rs hf]
    exact h

theorem stand_turnInvariant (s : State) (rs : List Response) (h : TurnInvariant s) :
    TurnInvariant (stand s rs).final := by
  by_cases hact : s.gameActive = true
  · apply turnInvariant_of_inactive
    unfold stand
    simp only [hact, Bool.not_true, Bool.false_eq_true, if_false]
    exact dealerTurn_final_inactive _ rs
  · have hf : s.gameActive = false := by simpa using hact
    rw [stand_idle s rs hf]
    exact h

theorem deal_turnInvariant (s : State) (rs : List Response) (h : TurnInvariant s) :
    TurnInvariant (deal s rs).final := by
  cases rs with
  | nil => exact h
  | cons r rest =>
    cases r with
    | fail => exact h
    | ok draw =>
      rcases hc : draw.cards with _ | ⟨c0, _ | ⟨c1, _ | ⟨c2, _ | ⟨c3, more⟩⟩⟩⟩
      · simpa [deal, hc] using h
      · simpa [deal, hc] using h
      · simpa [deal, hc] using h
      · simpa [deal, hc] using h
      · rw [deal_cards s draw c0 c1 c2 c3 more rest hc]
        split_ifs with h21
        · exact turnInvariant_of_inactive _ (by
            simpa using dealerTurn_final_inactive _ rest)
        · intro _
          have h2 := handScore_two_le [c0, c2] rfl
          refine ⟨?_, ?_, ?_⟩
          · show handScore [c0, c2] < 21
            omega
          · show 2 ≤ [c0, c2].length
            simp
          · rfl

theorem newGame_turnInvariant (s : State) (rs : List Response) (h : TurnInvariant s) :
    TurnInvariant (newGame s rs).final := by
  obtain ⟨h1, h2, h3, -, -, -⟩ := caught_fields (tryNewGame (startDealing s) rs)
  unfold newGame
  refine turnInvariant_of_fields _ _ h3 h1 h2 ?_
  have h0 : TurnInvariant (startDealing s) := turnInvariant_of_fields s _ rfl rfl rfl h
  unfold tryNewGame
  split_ifs
  · cases rs with
    | nil => exact h0
    | cons r rest =>
      cases r with
      | fail => exact h0
      | ok d =>
        simp only [after_fields]
        exact deal_turnInvariant _ rest (turnInvariant_of_fields _ _ rfl rfl rfl h0)
  · cases rs with
    | nil => exact h0
    | cons r rest =>
      cases r with
      | fail => exact h0
      | ok d =>
        simp only [after_fields]
        exact deal_turnInvariant _ rest h0

/-- C17. In every state reached from the state after loading by ended runs of
`newGame`, `hit` and `stand`, when `gameActive` is true the player hand scores
under 21 and holds at least 2 cards, and the dealer hand holds exactly 2
cards. -/
theorem reachable_turn_invariant (s : State) (hr : Reachable s) (hact : s.gameActive = true) :
    handScore s.playerCards < 21 ∧ 2 ≤ s.playerCards.length ∧ s.dealerCards.length = 2 := by
  have hinv : TurnInvariant s := by
    clear hact
    induction hr with
    | initial => exact turnInvariant_of_inactive _ rfl
    | newGame s rs _ _ ih => exact newGame_turnInvariant s rs ih
    | hit s rs _ _ ih => exact hit_turnInvariant s rs ih
    | stand s rs _ _ ih => exact stand_turnInvariant s rs ih
  exact hinv hact

/-- Witness of C17: after a deal of 10, 9, 5, 7 and a hit drawing a 3, the
player holds {10, 5, 3} = 18 and may act; the dealer holds {9, 7}. -/
theorem reachable_turn_invariant_witness :
    (hit (newGame State.initial
        [.ok ⟨"d", []⟩, .ok ⟨"d", [card .ten, card .nine, card .five, card .seven]⟩]).final
      [.ok ⟨"d", [card .three]⟩]).final.gameActive = true ∧
    handScore (hit (newGame State.initial
        [.ok ⟨"d", []⟩, .ok ⟨"d", [card .ten, card .nine, card .five, card .seven]⟩]).final
      [.ok ⟨"d", [card .three]⟩]).final.playerCards < 21 ∧
    2 ≤ (hit (newGame State.initial
        [.ok ⟨"d", []⟩, .ok ⟨"d", [card .ten, card .nine, card .five, card .seven]⟩]).final
      [.ok ⟨"d", [card .three]⟩]).final.playerCards.length ∧
    (hit (newGame State.initial
        [.ok ⟨"d", []⟩, .ok ⟨"d", [card .ten, card .nine, card .five, card .seven]⟩]).final
      [.ok ⟨"d", [card .three]⟩]).final.dealerCards.length = 2 :=
  ⟨by decide,
   reachable_turn_invariant _
    (Reachable.hit _ [.ok ⟨"d", [card .three]⟩]
      (Reachable.newGame State.initial
        [.ok ⟨"d", []⟩, .ok ⟨"d", [card .ten, card .nine, card .five, card .seven]⟩]
        Reachable.initial (Or.inl (by decide)))
      (Or.inl (by decide)))
    (by decide)⟩

end Blackjack
